import Mathlib

/-! Software rasterizer (`3DVisualizations/Device.cpp`): embedding and properties.

The device owns a BGRA back buffer and a depth buffer; every drawing routine
ends in `Device::DrawPoint`, which clips, depth-tests and composites one pixel.

Modelling conventions.

* A C++ `double` is an exact rational number (`ℚ`): comparisons, sums, products
  and quotients are the exact ones, so rounding, infinities and NaN are outside
  the model.  Decimal literals denote the rational they spell.
* The one division `Device.cpp` makes without a guard, the depth quotient of
  `DrawLine`, is also given as a double that may be infinite or NaN (`Depth`,
  `lineDepth`), together with the depth test that receives it
  (`DrawPointDepth`).
* A C++ `int` is an unbounded `Int`; wrap-around of 32-bit arithmetic is outside
  the model.
* `(int)d` truncates toward zero (`toInt`).
* A buffer is a list of cells; reading or writing outside the list, which is
  undefined in C++, reads `0` and writes nothing.
-/

namespace Engine

/-- The constant `epsilon` of `Device.cpp`. -/
def epsilon : ℚ := 1 / 100000

/-- The value `std::numeric_limits<double>::max()`, i.e. `(2^53 - 1) * 2^971`. -/
def DBL_MAX : ℚ := (2 ^ 53 - 1) * 2 ^ 971

/-- The conversion `(int)d` of a double: truncation toward zero. -/
def toInt (d : ℚ) : Int := if 0 ≤ d then ⌊d⌋ else ⌈d⌉

/-- The conversion `(char)d` of a double: truncation toward zero, then the low
eight bits read as a signed 8-bit value. -/
def toChar (d : ℚ) : Int := (toInt d + 128) % 256 - 128

/-- A C++ `double` that need not be a number: `num q` is the number `q`, `inf`
is an infinity (negative when the flag is set) and `nan` is NaN.  The rest of
the development works with numbers alone; this type serves the one expression
of `Device.cpp` that divides without a guard, the quotient `t` of `DrawLine`,
and the depth test that receives its result. -/
inductive Depth where
  | num (q : ℚ)
  | inf (negative : Bool)
  | nan
deriving DecidableEq, Repr

namespace Depth

/-- The quotient `a / b` of two numbers as a double: `0.0 / 0.0` is NaN and a
number other than zero over `0.0` is the infinity of its sign. -/
def div (a b : ℚ) : Depth :=
  if b = 0 then (if a = 0 then nan else inf (decide (a < 0))) else num (a / b)

/-- The product `q * d` of a number and a double. -/
def scale (q : ℚ) : Depth → Depth
  | num t => num (q * t)
  | inf negative => if q = 0 then nan else inf (xor negative (decide (q < 0)))
  | nan => nan

/-- The sum `q + d` of a number and a double. -/
def shift (q : ℚ) : Depth → Depth
  | num t => num (q + t)
  | inf negative => inf negative
  | nan => nan

/-- The comparison `a > b` of two doubles: false as soon as one is NaN. -/
def gt : Depth → Depth → Bool
  | num a, num b => decide (a > b)
  | num _, inf negative => negative
  | inf negative, num _ => !negative
  | inf a, inf b => !a && b
  | _, _ => false

end Depth

/-- Modelled from the spec: `Vector3.h` is not among the sources; a point is a
triple of doubles `X`, `Y`, `Z`, the members `Device.cpp` reads. -/
structure Vector3 where
  X : ℚ
  Y : ℚ
  Z : ℚ
deriving DecidableEq, Repr

/-- Modelled from the spec: `Color4.h` is not among the sources; a colour has
the four normalised channels `Device.cpp` reads. -/
structure Color4 where
  Red : ℚ
  Green : ℚ
  Blue : ℚ
  Alpha : ℚ
deriving DecidableEq, Repr

/-- Modelled from the spec: `BackBuffer.h` is not among the sources.  The
framebuffer has `width × height` pixels of 4 bytes (B, G, R, A) and row stride
`scanLineSize`; `operator[]` addresses single bytes.  Whether the byte type is
signed is not visible in `Device.cpp`, so it is a field: a cell holds the number
the C++ expression `backBuffer[i]` evaluates to. -/
structure BackBuffer where
  width : Int
  height : Int
  scanLineSize : Int
  signedCells : Bool
  cells : List Int
deriving DecidableEq, Repr

namespace BackBuffer

/-- Modelled from the spec: the constructor `BackBuffer(width, height)`, with
row stride `width * 4` and `width * height * 4` zeroed bytes. -/
def create (signedCells : Bool) (width height : Int) : BackBuffer :=
  { width := width, height := height, scanLineSize := width * 4,
    signedCells := signedCells,
    cells := List.replicate (width * height * 4).toNat 0 }

/-- The value a cell holds after the assignment `backBuffer[i] = n`: the low
eight bits of `n` in the range of the byte type. -/
def store (bb : BackBuffer) (n : Int) : Int :=
  if bb.signedCells then (n + 128) % 256 - 128 else n % 256

/-- The expression `backBuffer[index]` read as a value. -/
def read (bb : BackBuffer) (index : Int) : Int :=
  if 0 ≤ index then bb.cells.getD index.toNat 0 else 0

/-- The assignment `backBuffer[index] = n`. -/
def write (bb : BackBuffer) (index : Int) (n : Int) : BackBuffer :=
  if 0 ≤ index then { bb with cells := bb.cells.set index.toNat (bb.store n) } else bb

end BackBuffer

/-- The state of a `Device`: its size, the back buffer and the depth buffer. -/
structure Device where
  deviceWidth : Int
  deviceHeight : Int
  depthBufferSize : Int
  backBuffer : BackBuffer
  depthBuffer : List ℚ
deriving DecidableEq, Repr

namespace Device

/-- The constructor `Device(pixelWidth, pixelHeight)`; `resize` value-initialises
the depth cells to `0`. -/
def create (signedCells : Bool) (pixelWidth pixelHeight : Int) : Device :=
  { deviceWidth := pixelWidth, deviceHeight := pixelHeight,
    depthBufferSize := pixelWidth * pixelHeight,
    backBuffer := BackBuffer.create signedCells pixelWidth pixelHeight,
    depthBuffer := List.replicate (pixelWidth * pixelHeight).toNat 0 }

/-- The expression `depthBuffer[index]` read as a value. -/
def depthAt (dev : Device) (index : Int) : ℚ :=
  if 0 ≤ index then dev.depthBuffer.getD index.toNat 0 else 0

/-- The assignment `depthBuffer[index] = z`. -/
def setDepth (dev : Device) (index : Int) (z : ℚ) : Device :=
  if 0 ≤ index then { dev with depthBuffer := dev.depthBuffer.set index.toNat z } else dev

/-- One iteration of the first loop of `Device::Clear`: the four byte
assignments at `index .. index + 3`. -/
def clearPixel (fillColor : Color4) (bb : BackBuffer) (index : Int) : BackBuffer :=
  let bb := bb.write index (toChar (fillColor.Blue * 255))
  let bb := bb.write (index + 1) (toChar (fillColor.Green * 255))
  let bb := bb.write (index + 2) (toChar (fillColor.Red * 255))
  bb.write (index + 3) (toChar (fillColor.Alpha * 255))

/-- `Device::Clear`: the loop `for (index = 0; index < scanLineSize * height;
index += 4)` runs for `index = 4 * k`, `k < ⌈scanLineSize * height / 4⌉`, and
the loop over the depth cells for `index < depthBufferSize`. -/
def Clear (dev : Device) (fillColor : Color4) : Device :=
  let limit := dev.backBuffer.scanLineSize * dev.backBuffer.height
  let bb := (List.range ((limit + 3) / 4).toNat).foldl
    (fun bb (k : Nat) => clearPixel fillColor bb (4 * (k : Int))) dev.backBuffer
  let dev := { dev with backBuffer := bb }
  (List.range dev.depthBufferSize.toNat).foldl
    (fun d (index : Nat) => d.setDepth (index : Int) DBL_MAX) dev

/-- One channel of `Device::PutPixel`:
`(char)(src * 255) + (char)((1.0 - alpha) * (double)backBuffer[i])`. -/
def blend (src alpha : ℚ) (dst : Int) : Int :=
  toChar (src * 255) + toChar ((1 - alpha) * (dst : ℚ))

/-- `Device::PutPixel`. -/
def PutPixel (dev : Device) (x y : Int) (color : Color4) : Device :=
  let index := x * 4 + y * dev.backBuffer.scanLineSize
  let bb := dev.backBuffer
  let bb := bb.write index (blend color.Blue color.Alpha (bb.read index))
  let bb := bb.write (index + 1) (blend color.Green color.Alpha (bb.read (index + 1)))
  let bb := bb.write (index + 2) (blend color.Red color.Alpha (bb.read (index + 2)))
  let bb := bb.write (index + 3) (blend color.Alpha color.Alpha (bb.read (index + 3)))
  { dev with backBuffer := bb }

/-- `Device::DrawPoint`. -/
def DrawPoint (dev : Device) (point : Vector3) (color : Color4) : Device :=
  if point.X < 0 ∨ point.Y < 0 ∨ point.X ≥ dev.deviceWidth ∨ point.Y ≥ dev.deviceHeight then
    dev
  else
    let index := toInt point.X + toInt point.Y * dev.deviceWidth
    if point.Z > dev.depthAt index then
      dev
    else
      PutPixel (dev.setDepth index point.Z) (toInt point.X) (toInt point.Y) color

/-- `Device::Interpolate`. -/
def Interpolate (min max gradient : ℚ) : ℚ := min + ((max - min) * gradient)

/-- The two gradient initialisers of `Device::ProcessScanLine`:
`(abs(pa.Y - pb.Y) > epsilon) ? (y - pa.Y) / (pb.Y - pa.Y) : 1`. -/
def scanGradient (y : Int) (pa pb : Vector3) : ℚ :=
  if |pa.Y - pb.Y| > epsilon then ((y : ℚ) - pa.Y) / (pb.Y - pa.Y) else 1

/-- The points `Device::ProcessScanLine` hands to `DrawPoint`, in call order:
one for each `x` of the loop `for (x = sx; x < ex; x++)`. -/
def scanLinePoints (y : Int) (pa pb pc pd : Vector3) : List Vector3 :=
  let gradient1 := scanGradient y pa pb
  let gradient2 := scanGradient y pc pd
  let sx := toInt (Interpolate pa.X pb.X gradient1)
  let ex := toInt (Interpolate pc.X pd.X gradient2)
  let z1 := Interpolate pa.Z pb.Z gradient1
  let z2 := Interpolate pc.Z pd.Z gradient2
  (List.range (ex - sx).toNat).map fun (k : Nat) =>
    let x : Int := sx + (k : Int)
    let gradient : ℚ := ((x - sx : Int) : ℚ) / ((ex - sx : Int) : ℚ)
    let z := Interpolate z1 z2 gradient
    { X := (x : ℚ), Y := (y : ℚ), Z := z }

/-- `Device::ProcessScanLine`: `DrawPoint` on each point of the scanline. -/
def ProcessScanLine (dev : Device) (y : Int) (pa pb pc pd : Vector3) (color : Color4) : Device :=
  (scanLinePoints y pa pb pc pd).foldl (fun d p => DrawPoint d p color) dev

/-- The three compare-swaps at the head of `Device::RasterizeTriangle`. -/
def sortPoints (p1 p2 p3 : Vector3) : Vector3 × Vector3 × Vector3 :=
  let a := if p1.Y > p2.Y then (p2, p1) else (p1, p2)
  let b := if a.2.Y > p3.Y then (p3, a.2) else (a.2, p3)
  let c := if a.1.Y > b.1.Y then (b.1, a.1) else (a.1, b.1)
  (c.1, c.2, b.2)

/-- The swap `if ((abs(p1.Y - p2.Y) < epsilon) && p1.X > p2.X)` that follows the
degenerate-triangle guard. -/
def orientTop (p1 p2 : Vector3) : Vector3 × Vector3 :=
  if |p1.Y - p2.Y| < epsilon ∧ p1.X > p2.X then (p2, p1) else (p1, p2)

/-- The scanline rows of `Device::RasterizeTriangle`:
`for (y = (int)p1.Y; y <= (int)p3.Y; y++)`. -/
def scanRows (p1 p3 : Vector3) : List Int :=
  (List.range (toInt p3.Y - toInt p1.Y + 1).toNat).map fun (k : Nat) => toInt p1.Y + (k : Int)

/-- `Device::RasterizeTriangle`. -/
def RasterizeTriangle (dev : Device) (p1 p2 p3 : Vector3) (color : Color4) : Device :=
  let s := sortPoints p1 p2 p3
  let p3 := s.2.2
  if |s.1.Y - p3.Y| < 2 / 10 then
    dev
  else
    let o := orientTop s.1 s.2.1
    let p1 := o.1
    let p2 := o.2
    let horizontal : Bool := !decide (p2.Y - p1.Y > epsilon)
    let dP1P2 : ℚ := if p2.Y - p1.Y > epsilon then (p2.X - p1.X) / (p2.Y - p1.Y) else 0
    let dP1P3 : ℚ := if p3.Y - p1.Y > epsilon then (p3.X - p1.X) / (p3.Y - p1.Y) else 0
    if horizontal = true ∨ dP1P2 > dP1P3 then
      (scanRows p1 p3).foldl (fun d (y : Int) =>
        if (y : ℚ) < p2.Y then ProcessScanLine d y p1 p3 p1 p2 color
        else ProcessScanLine d y p1 p3 p2 p3 color) dev
    else
      (scanRows p1 p3).foldl (fun d (y : Int) =>
        if (y : ℚ) < p2.Y then ProcessScanLine d y p1 p2 p1 p3 color
        else ProcessScanLine d y p2 p3 p1 p3 color) dev

/-- The free function `delta` of `Device.cpp`: `sqrt(x * x + y * y)`, with the
library function `sqrt` of `<cmath>` as a parameter. -/
def delta (sqrt : ℚ → ℚ) (x y : Int) : ℚ :=
  let x2 : ℚ := ((x * x : Int) : ℚ)
  let y2 : ℚ := ((y * y : Int) : ℚ)
  sqrt (x2 + y2)

/-- The first thickening loop of `Device::DrawLine`, entered with `e2 + dy` and
`y2 = y`: `for (...; e2 < ed * wd && (y1 != y2 || dx > dy); e2 += dx)` with body
`y2 += sy; DrawPoint(Vector3(x, y2, z), color)`.  The result lists the points
handed to `DrawPoint`; `none` when the iteration budget runs out. -/
def thickenY (ed : ℚ) (wd dx dy sy y1 x : Int) (z : ℚ) : Nat → ℚ → Int → Option (List Vector3)
  | 0, _, _ => none
  | fuel + 1, e2, y2 =>
    if e2 < ed * (wd : ℚ) ∧ (y1 ≠ y2 ∨ dx > dy) then
      (thickenY ed wd dx dy sy y1 x z fuel (e2 + (dx : ℚ)) (y2 + sy)).map
        fun ps => { X := (x : ℚ), Y := ((y2 + sy : Int) : ℚ), Z := z } :: ps
    else
      some []

/-- The second thickening loop of `Device::DrawLine`, entered with `dx - e2` and
`x2 = x`: `for (...; e2 < ed * wd && (x1 != x2 || dx < dy); e2 += dy)` with body
`x2 += sx; DrawPoint(Vector3(x2, y, z), color)`. -/
def thickenX (ed : ℚ) (wd dx dy sx x1 y : Int) (z : ℚ) : Nat → ℚ → Int → Option (List Vector3)
  | 0, _, _ => none
  | fuel + 1, e2, x2 =>
    if e2 < ed * (wd : ℚ) ∧ (x1 ≠ x2 ∨ dx < dy) then
      (thickenX ed wd dx dy sx x1 y z fuel (e2 + (dy : ℚ)) (x2 + sx)).map
        fun ps => { X := ((x2 + sx : Int) : ℚ), Y := (y : ℚ), Z := z } :: ps
    else
      some []

/-- The loop-invariant values of `Device::DrawLine`, computed before `while (true)`. -/
structure LineSetup where
  x0 : Int
  y0 : Int
  x1 : Int
  y1 : Int
  wd : Int
  dx : Int
  dy : Int
  sx : Int
  sy : Int
  ed : ℚ
  zA : ℚ
  zB : ℚ
deriving Repr

/-- The declarations at the head of `Device::DrawLine`. -/
def lineSetup (sqrt : ℚ → ℚ) (pointA pointB : Vector3) (width : Int) : LineSetup :=
  let x0 := toInt pointA.X
  let y0 := toInt pointA.Y
  let x1 := toInt pointB.X
  let y1 := toInt pointB.Y
  let dx := |x1 - x0|
  let dy := |y1 - y0|
  { x0 := x0, y0 := y0, x1 := x1, y1 := y1,
    wd := Int.tdiv (width + 1) 2,
    dx := dx, dy := dy,
    sx := if x0 < x1 then 1 else -1,
    sy := if y0 < y1 then 1 else -1,
    ed := if dx + dy = 0 then 1 else delta sqrt dx dy,
    zA := pointA.Z, zB := pointB.Z }

/-- What one pass through the body of `while (true)` in `Device::DrawLine` does:
the points handed to `DrawPoint`, and the next `(x, y, err)`, or `none` for it
when the pass ends in a `break`. -/
structure LinePass where
  points : List Vector3
  next : Option (Int × Int × Int)
deriving Repr

/-- One pass through the body of `while (true)` in `Device::DrawLine`, from the
loop variables `x`, `y`, `err`; `fuel` bounds each thickening loop.  The depth
`z` of the points is the number the code computes when `delta(dx, dy)` is not
zero; when it is zero the quotient `t` is not a number in C++, and `lineDepth`
gives the double the code computes. -/
def linePass (sqrt : ℚ → ℚ) (s : LineSetup) (fuel : Nat) (x y err : Int) : Option LinePass :=
  let t : ℚ := delta sqrt (x - s.x0) (y - s.y0) / delta sqrt s.dx s.dy
  let z : ℚ := Interpolate s.zA s.zB t
  let first : Vector3 := { X := (x : ℚ), Y := (y : ℚ), Z := z }
  let e2 : ℚ := (err : ℚ)
  let x2 : Int := x
  if 2 * e2 ≥ -(s.dx : ℚ) then
    match thickenY s.ed s.wd s.dx s.dy s.sy s.y1 x z fuel (e2 + (s.dy : ℚ)) y with
    | none => none
    | some ps1 =>
      if x = s.x1 then
        some { points := first :: ps1, next := none }
      else
        let e2 : ℚ := (err : ℚ)
        let err := err - s.dy
        let x := x + s.sx
        if 2 * e2 ≤ (s.dy : ℚ) then
          match thickenX s.ed s.wd s.dx s.dy s.sx s.x1 y z fuel ((s.dx : ℚ) - e2) x2 with
          | none => none
          | some ps2 =>
            if y = s.y1 then
              some { points := first :: (ps1 ++ ps2), next := none }
            else
              some { points := first :: (ps1 ++ ps2), next := some (x, y + s.sy, err + s.dx) }
        else
          some { points := first :: ps1, next := some (x, y, err) }
  else
    if 2 * e2 ≤ (s.dy : ℚ) then
      match thickenX s.ed s.wd s.dx s.dy s.sx s.x1 y z fuel ((s.dx : ℚ) - e2) x2 with
      | none => none
      | some ps2 =>
        if y = s.y1 then
          some { points := first :: ps2, next := none }
        else
          some { points := first :: ps2, next := some (x, y + s.sy, err + s.dx) }
    else
      some { points := [first], next := some (x, y, err) }

/-- The loop `while (true)` of `Device::DrawLine` from the loop variables `x`,
`y`, `err`: the points handed to `DrawPoint`, in call order; `none` when `fuel`
passes do not reach a `break`. -/
def lineLoop (sqrt : ℚ → ℚ) (s : LineSetup) (inner : Nat) : Nat → Int → Int → Int → Option (List Vector3)
  | 0, _, _, _ => none
  | fuel + 1, x, y, err =>
    match linePass sqrt s inner x y err with
    | none => none
    | some pass =>
      match pass.next with
      | none => some pass.points
      | some (x, y, err) => (lineLoop sqrt s inner fuel x y err).map fun ps => pass.points ++ ps

/-- The points `Device::DrawLine` hands to `DrawPoint`, in call order. -/
def linePoints (sqrt : ℚ → ℚ) (fuel : Nat) (pointA pointB : Vector3) (width : Int) :
    Option (List Vector3) :=
  let s := lineSetup sqrt pointA pointB width
  lineLoop sqrt s fuel fuel s.x0 s.y0 (s.dx - s.dy)

/-- `Device::DrawLine`: `DrawPoint` on each point of the line; `none` when
`fuel` iterations of some loop do not finish it. -/
def DrawLine (sqrt : ℚ → ℚ) (fuel : Nat) (dev : Device) (pointA pointB : Vector3)
    (color : Color4) (width : Int) : Option Device :=
  (linePoints sqrt fuel pointA pointB width).map fun ps =>
    ps.foldl (fun d p => DrawPoint d p color) dev

/-- Binary search for the integer square root: adds each of the bits
`2^(k-1), ..., 2^0` to `r` when the square stays below or at `n`. -/
def isqrtBits (n : Nat) : Nat → Nat → Nat
  | 0, r => r
  | k + 1, r => if (r + 2 ^ k) * (r + 2 ^ k) ≤ n then isqrtBits n k (r + 2 ^ k) else isqrtBits n k r

/-- A rational stand-in for `sqrt`, used to run `DrawLine` on concrete inputs:
the largest multiple of `2^-52` whose square does not exceed `q`. -/
def sqrtDown (q : ℚ) : ℚ :=
  ((isqrtBits (⌊q * 2 ^ 104⌋).toNat (53 + (⌊q⌋).toNat) 0 : Nat) : ℚ) / 2 ^ 52

/-- The pixel `((int)X, (int)Y)` a point falls in. -/
def pixelOf (p : Vector3) : Int × Int := (toInt p.X, toInt p.Y)

/-- A point passes the clip test of `Device::DrawPoint`: it lies in
`[0, width) × [0, height)`. -/
def inBounds (dev : Device) (p : Vector3) : Prop :=
  0 ≤ p.X ∧ 0 ≤ p.Y ∧ p.X < dev.deviceWidth ∧ p.Y < dev.deviceHeight

instance (dev : Device) (p : Vector3) : Decidable (inBounds dev p) := by
  unfold inBounds; infer_instance

/-- The depth-buffer index `(int)X + (int)Y * deviceWidth` of a point. -/
def depthIndex (dev : Device) (p : Vector3) : Int :=
  toInt p.X + toInt p.Y * dev.deviceWidth

/-- The back-buffer offset `x * 4 + y * scanLineSize` of the first byte of the
pixel a point falls in. -/
def byteIndex (dev : Device) (p : Vector3) : Int :=
  toInt p.X * 4 + toInt p.Y * dev.backBuffer.scanLineSize

/-- The shape of a device built by `Device(pixelWidth, pixelHeight)` with
non-negative sizes, which `Clear` and the drawing routines keep: the depth
buffer has `width * height` cells, the back buffer `width * height * 4` bytes
and row stride `width * 4`. -/
def WellFormed (dev : Device) : Prop :=
  0 ≤ dev.deviceWidth ∧ 0 ≤ dev.deviceHeight ∧
  dev.depthBufferSize = dev.deviceWidth * dev.deviceHeight ∧
  dev.depthBuffer.length = (dev.deviceWidth * dev.deviceHeight).toNat ∧
  dev.backBuffer.width = dev.deviceWidth ∧
  dev.backBuffer.height = dev.deviceHeight ∧
  dev.backBuffer.scanLineSize = dev.deviceWidth * 4 ∧
  dev.backBuffer.cells.length = (dev.deviceWidth * dev.deviceHeight * 4).toNat

instance (dev : Device) : Decidable (WellFormed dev) := by
  unfold WellFormed; infer_instance

/-- The channel of a colour stored at byte `k` of a pixel: Blue, Green, Red,
Alpha for `k = 0, 1, 2, 3`. -/
def channel (color : Color4) (k : Int) : ℚ :=
  if k = 0 then color.Blue else if k = 1 then color.Green
  else if k = 2 then color.Red else color.Alpha

/-- Runs `DrawPoint` on a list of points, in order, with one colour. -/
def drawPoints (dev : Device) (ps : List Vector3) (color : Color4) : Device :=
  ps.foldl (fun d p => DrawPoint d p color) dev

/-- A 1×1 device cleared to black on which a red point of depth `1` was drawn. -/
def tieDevice : Device :=
  DrawPoint (Clear (create true 1 1) ⟨0, 0, 0, 1⟩) ⟨0, 0, 1⟩ ⟨1, 0, 0, 1⟩

/-- Runs a sequence of `DrawPoint` calls, each with its own colour, in order. -/
def drawCalls (dev : Device) (calls : List (Vector3 × Color4)) : Device :=
  calls.foldl (fun d pc => DrawPoint d pc.1 pc.2) dev

/-- The `Z` values of the in-bounds points among `calls` that fall in pixel
`(x, y)`, in call order. -/
def depthsAt (dev : Device) (calls : List (Vector3 × Color4)) (x y : Int) : List ℚ :=
  (calls.filter fun pc => decide (inBounds dev pc.1 ∧ pixelOf pc.1 = (x, y))).map fun pc => pc.1.Z

/-- The points `Device::RasterizeTriangle` hands to `DrawPoint`, in call order:
those of its `ProcessScanLine` calls, row after row. -/
def trianglePoints (p1 p2 p3 : Vector3) : List Vector3 :=
  let s := sortPoints p1 p2 p3
  let p3 := s.2.2
  if |s.1.Y - p3.Y| < 2 / 10 then
    []
  else
    let o := orientTop s.1 s.2.1
    let p1 := o.1
    let p2 := o.2
    let horizontal : Bool := !decide (p2.Y - p1.Y > epsilon)
    let dP1P2 : ℚ := if p2.Y - p1.Y > epsilon then (p2.X - p1.X) / (p2.Y - p1.Y) else 0
    let dP1P3 : ℚ := if p3.Y - p1.Y > epsilon then (p3.X - p1.X) / (p3.Y - p1.Y) else 0
    if horizontal = true ∨ dP1P2 > dP1P3 then
      (scanRows p1 p3).flatMap fun (y : Int) =>
        if (y : ℚ) < p2.Y then scanLinePoints y p1 p3 p1 p2
        else scanLinePoints y p1 p3 p2 p3
    else
      (scanRows p1 p3).flatMap fun (y : Int) =>
        if (y : ℚ) < p2.Y then scanLinePoints y p1 p2 p1 p3
        else scanLinePoints y p2 p3 p1 p3

/-- A 9×1 device cleared to opaque black. -/
def rowDevice : Device := Clear (create true 9 1) ⟨0, 0, 0, 1⟩

/-- The apex of a triangle that lies wholly above the screen (`Y < 0`). -/
def apexPoint : Vector3 := ⟨5, -3 / 2, 0⟩

/-- The right end of the horizontal bottom edge of that triangle. -/
def rightPoint : Vector3 := ⟨7, -1 / 2, 0⟩

/-- The left end of the horizontal bottom edge of that triangle. -/
def leftPoint : Vector3 := ⟨3, -1 / 2, 0⟩

/-- A 3×3 device cleared to opaque black on which a red point of depth `-10`
was drawn at pixel `(1, 1)`. -/
def shieldedDevice : Device :=
  DrawPoint (Clear (create true 3 3) ⟨0, 0, 0, 1⟩) ⟨1, 1, -10⟩ ⟨1, 0, 0, 1⟩

/-- The arguments of one `ProcessScanLine` call: the row and the two edges
`pa → pb` (left) and `pc → pd` (right). -/
structure ScanCall where
  y : Int
  pa : Vector3
  pb : Vector3
  pc : Vector3
  pd : Vector3
deriving DecidableEq, Repr

/-- The `ProcessScanLine` calls `Device::RasterizeTriangle` issues, in order. -/
def triangleScanCalls (p1 p2 p3 : Vector3) : List ScanCall :=
  let s := sortPoints p1 p2 p3
  let p3 := s.2.2
  if |s.1.Y - p3.Y| < 2 / 10 then
    []
  else
    let o := orientTop s.1 s.2.1
    let p1 := o.1
    let p2 := o.2
    let horizontal : Bool := !decide (p2.Y - p1.Y > epsilon)
    let dP1P2 : ℚ := if p2.Y - p1.Y > epsilon then (p2.X - p1.X) / (p2.Y - p1.Y) else 0
    let dP1P3 : ℚ := if p3.Y - p1.Y > epsilon then (p3.X - p1.X) / (p3.Y - p1.Y) else 0
    if horizontal = true ∨ dP1P2 > dP1P3 then
      (scanRows p1 p3).map fun (y : Int) =>
        if (y : ℚ) < p2.Y then { y := y, pa := p1, pb := p3, pc := p1, pd := p2 }
        else { y := y, pa := p1, pb := p3, pc := p2, pd := p3 }
    else
      (scanRows p1 p3).map fun (y : Int) =>
        if (y : ℚ) < p2.Y then { y := y, pa := p1, pb := p2, pc := p1, pd := p3 }
        else { y := y, pa := p2, pb := p3, pc := p1, pd := p3 }

/-- `Device::Project`.  `Quaternion::Rotate` and `Vector3::TransformCoordinate`
belong to the math library, which is not among the sources; they are
parameters, as are the types of the quaternion and of the matrix. -/
def Project {Quaternion Matrix : Type} (Rotate : Quaternion → Vector3 → Vector3)
    (TransformCoordinate : Vector3 → Matrix → Vector3) (dev : Device) (coord : Vector3)
    (rotation : Quaternion) (transMat : Matrix) : Vector3 :=
  let point := Rotate rotation coord
  let point := TransformCoordinate point transMat
  let x : ℚ := point.X * (dev.deviceWidth : ℚ) + (dev.deviceWidth : ℚ) / 2
  let y : ℚ := -point.Y * (dev.deviceHeight : ℚ) + (dev.deviceHeight : ℚ) / 2
  { X := x, Y := y, Z := point.Z }

/-- The denominator `delta(dx, dy)` of the division
`double t = delta(x - x0, y - y0) / delta(dx, dy)` that `Device::DrawLine`
executes at the head of every pass of `while (true)`. -/
def lineDepthDenominator (sqrt : ℚ → ℚ) (s : LineSetup) : ℚ := delta sqrt s.dx s.dy

/-- An on-screen triangle whose top edge is horizontal at `Y = 1/2`. -/
def topA : Vector3 := ⟨1, 1 / 2, 1⟩

/-- The right end of the top edge of that triangle. -/
def topB : Vector3 := ⟨6, 1 / 2, 2⟩

/-- The bottom vertex of that triangle. -/
def topC : Vector3 := ⟨3, 7 / 2, 3⟩

/-- An 8×4 device cleared to opaque black. -/
def smallDevice : Device := Clear (create true 8 4) ⟨0, 0, 0, 1⟩

/-- The depth `z` of one pass of `while (true)` in `Device::DrawLine` at
`(x, y)` as a double: `t = delta(x - x0, y - y0) / delta(dx, dy)` and
`z = Interpolate(pointA.Z, pointB.Z, t)`, that is `min + ((max - min) * t)`. -/
def lineDepth (sqrt : ℚ → ℚ) (s : LineSetup) (x y : Int) : Depth :=
  let t := Depth.div (delta sqrt (x - s.x0) (y - s.y0)) (delta sqrt s.dx s.dy)
  Depth.shift s.zA (Depth.scale (s.zB - s.zA) t)

/-- The statements of `Device::DrawPoint` that touch the depth buffer, for a
point whose `Z` is a double and a depth buffer whose cells are doubles: the
clip test, the index, the depth test `point.Z > depthBuffer[index]` and the
store `depthBuffer[index] = point.Z`.  The call of `PutPixel` that follows
writes the back buffer alone. -/
def DrawPointDepth (deviceWidth deviceHeight : Int) (depthBuffer : List Depth)
    (X Y : ℚ) (Z : Depth) : List Depth :=
  if X < 0 ∨ Y < 0 ∨ X ≥ deviceWidth ∨ Y ≥ deviceHeight then
    depthBuffer
  else
    let index := toInt X + toInt Y * deviceWidth
    let stored := if 0 ≤ index then depthBuffer.getD index.toNat (Depth.num 0) else Depth.num 0
    if Depth.gt Z stored then
      depthBuffer
    else
      if 0 ≤ index then depthBuffer.set index.toNat Z else depthBuffer

/-- Runs the depth statements of `DrawPoint` on a sequence of points, in order. -/
def drawDepths (deviceWidth deviceHeight : Int) (depthBuffer : List Depth)
    (points : List (ℚ × ℚ × Depth)) : List Depth :=
  points.foldl (fun b p => DrawPointDepth deviceWidth deviceHeight b p.1 p.2.1 p.2.2) depthBuffer

/-- The depth buffer of a 4×4 device after `Clear`, its cells read as doubles. -/
def clearedDepths : List Depth :=
  (Clear (create true 4 4) ⟨0, 0, 0, 1⟩).depthBuffer.map Depth.num

/-- The first endpoint of a line that begins and ends in pixel `(1, 2)`. -/
def shortA : Vector3 := ⟨3 / 2, 5 / 2, 7⟩

/-- The second endpoint of that line. -/
def shortB : Vector3 := ⟨7 / 4, 9 / 4, 9⟩

/-- A 2×2 device cleared to the opaque colour `(R, G, B) = (1/5, 2/5, 3/5)`,
so that every pixel holds the bytes `153, 102, 51, 255` (B, G, R, A), read as
signed bytes `-103, 102, 51, -1`, and every depth cell the sentinel. -/
def tintedDevice : Device := Clear (create true 2 2) ⟨1 / 5, 2 / 5, 3 / 5, 1⟩

/-- The truncated interpolated edge `X` of `Device::ProcessScanLine` on row `y`:
`(int)Interpolate(pa.X, pb.X, gradient)`; it is `sx` for the left edge and `ex`
for the right edge. -/
def scanX (y : Int) (pa pb : Vector3) : Int :=
  toInt (Interpolate pa.X pb.X (scanGradient y pa pb))

/-- The interpolated edge depth of `Device::ProcessScanLine` on row `y`:
`Interpolate(pa.Z, pb.Z, gradient)`; it is `z1` for the left edge and `z2` for
the right edge. -/
def scanZ (y : Int) (pa pb : Vector3) : ℚ :=
  Interpolate pa.Z pb.Z (scanGradient y pa pb)

end Device

end Engine


/-! ## Conversions -/

namespace Engine

theorem toInt_intCast (n : Int) : toInt (n : ℚ) = n := by
  unfold toInt
  split <;> simp

theorem toInt_nonneg {d : ℚ} (h : 0 ≤ d) : 0 ≤ toInt d := by
  unfold toInt
  rw [if_pos h]
  exact Int.floor_nonneg.mpr h

theorem toInt_lt_of_lt {d : ℚ} {w : Int} (h0 : 0 ≤ d) (h : d < (w : ℚ)) : toInt d < w := by
  unfold toInt
  rw [if_pos h0]
  exact Int.floor_lt.mpr h

/-! ## Cells of the back buffer -/

namespace BackBuffer

@[simp] theorem write_width (bb : BackBuffer) (i n : Int) : (bb.write i n).width = bb.width := by
  unfold write; split <;> rfl

@[simp] theorem write_height (bb : BackBuffer) (i n : Int) : (bb.write i n).height = bb.height := by
  unfold write; split <;> rfl

@[simp] theorem write_scanLineSize (bb : BackBuffer) (i n : Int) :
    (bb.write i n).scanLineSize = bb.scanLineSize := by
  unfold write; split <;> rfl

@[simp] theorem write_signedCells (bb : BackBuffer) (i n : Int) :
    (bb.write i n).signedCells = bb.signedCells := by
  unfold write; split <;> rfl

@[simp] theorem write_store (bb : BackBuffer) (i n m : Int) : (bb.write i n).store m = bb.store m := by
  unfold store; simp

@[simp] theorem write_length (bb : BackBuffer) (i n : Int) :
    (bb.write i n).cells.length = bb.cells.length := by
  unfold write; split <;> simp

theorem read_write (bb : BackBuffer) (i j n : Int) :
    (bb.write i n).read j =
      if i = j ∧ 0 ≤ i ∧ i.toNat < bb.cells.length then bb.store n else bb.read j := by
  unfold write read
  by_cases hi : 0 ≤ i
  · by_cases hj : 0 ≤ j
    · simp only [hi, hj, if_true, List.getD_eq_getElem?_getD, List.getElem?_set, true_and]
      by_cases hij : i = j
      · subst hij
        by_cases hl : i.toNat < bb.cells.length
        · simp [hl]
        · have hn : bb.cells[i.toNat]? = none := List.getElem?_eq_none (by omega)
          simp [hl, hn]
      · have : i.toNat ≠ j.toNat := by omega
        simp [hij, this]
    · have hij : i ≠ j := by omega
      simp [hi, hj, hij]
  · simp [hi]

/-- Two back buffers with the same header and the same readable cells are equal. -/
theorem ext_read (a b : BackBuffer) (hw : a.width = b.width) (hh : a.height = b.height)
    (hs : a.scanLineSize = b.scanLineSize) (hc : a.signedCells = b.signedCells)
    (hl : a.cells.length = b.cells.length) (hr : ∀ j, a.read j = b.read j) : a = b := by
  cases a with
  | mk aw ah as ac al =>
  cases b with
  | mk bw bh bs bc bl =>
  simp only at hw hh hs hc hl
  subst hw hh hs hc
  congr
  apply List.ext_getElem hl
  intro n h1 h2
  have := hr (n : Int)
  simp only [read, Int.natCast_nonneg, if_true, Int.toNat_ofNat, List.getD_eq_getElem?_getD] at this
  rw [List.getElem?_eq_getElem h1, List.getElem?_eq_getElem h2] at this
  simpa using this

end BackBuffer

end Engine

/-! ## Cells of the device -/

namespace Engine

namespace Device

@[simp] theorem setDepth_backBuffer (dev : Device) (i : Int) (z : ℚ) :
    (dev.setDepth i z).backBuffer = dev.backBuffer := by
  unfold setDepth; split <;> rfl

@[simp] theorem setDepth_deviceWidth (dev : Device) (i : Int) (z : ℚ) :
    (dev.setDepth i z).deviceWidth = dev.deviceWidth := by
  unfold setDepth; split <;> rfl

@[simp] theorem setDepth_deviceHeight (dev : Device) (i : Int) (z : ℚ) :
    (dev.setDepth i z).deviceHeight = dev.deviceHeight := by
  unfold setDepth; split <;> rfl

@[simp] theorem setDepth_depthBufferSize (dev : Device) (i : Int) (z : ℚ) :
    (dev.setDepth i z).depthBufferSize = dev.depthBufferSize := by
  unfold setDepth; split <;> rfl

@[simp] theorem setDepth_length (dev : Device) (i : Int) (z : ℚ) :
    (dev.setDepth i z).depthBuffer.length = dev.depthBuffer.length := by
  unfold setDepth; split <;> simp

theorem depthAt_setDepth (dev : Device) (i j : Int) (z : ℚ) :
    (dev.setDepth i z).depthAt j =
      if i = j ∧ 0 ≤ i ∧ i.toNat < dev.depthBuffer.length then z else dev.depthAt j := by
  unfold setDepth depthAt
  by_cases hi : 0 ≤ i
  · by_cases hj : 0 ≤ j
    · simp only [hi, hj, if_true, List.getD_eq_getElem?_getD, List.getElem?_set, true_and]
      by_cases hij : i = j
      · subst hij
        by_cases hl : i.toNat < dev.depthBuffer.length
        · simp [hl]
        · have hn : dev.depthBuffer[i.toNat]? = none := List.getElem?_eq_none (by omega)
          simp [hl, hn]
      · have : i.toNat ≠ j.toNat := by omega
        simp [hij, this]
    · have hij : i ≠ j := by omega
      simp [hi, hj, hij]
  · simp [hi]

/-- Writing back the value a depth cell already holds changes nothing. -/
theorem setDepth_depthAt_self (dev : Device) (i : Int) : dev.setDepth i (dev.depthAt i) = dev := by
  unfold setDepth depthAt
  by_cases hi : 0 ≤ i
  · simp only [hi, if_true]
    have : dev.depthBuffer.set i.toNat (dev.depthBuffer.getD i.toNat 0) = dev.depthBuffer := by
      apply List.ext_getElem (by simp)
      intro n h1 h2
      rw [List.getElem_set]
      split
      · rename_i h
        subst h
        rw [List.getD_eq_getElem?_getD, List.getElem?_eq_getElem h2]
        rfl
      · rfl
    rw [this]
  · simp [hi]

/-- Two devices with the same header, the same back buffer and the same
readable depth cells are equal. -/
theorem ext_depthAt (a b : Device) (hw : a.deviceWidth = b.deviceWidth)
    (hh : a.deviceHeight = b.deviceHeight) (hs : a.depthBufferSize = b.depthBufferSize)
    (hb : a.backBuffer = b.backBuffer) (hl : a.depthBuffer.length = b.depthBuffer.length)
    (hr : ∀ j, a.depthAt j = b.depthAt j) : a = b := by
  cases a with
  | mk aw ah as ab al =>
  cases b with
  | mk bw bh bs bb bl =>
  simp only at hw hh hs hb hl
  subst hw hh hs hb
  congr
  apply List.ext_getElem hl
  intro n h1 h2
  have := hr (n : Int)
  simp only [depthAt, Int.natCast_nonneg, if_true, Int.toNat_ofNat, List.getD_eq_getElem?_getD] at this
  rw [List.getElem?_eq_getElem h1, List.getElem?_eq_getElem h2] at this
  simpa using this

@[simp] theorem PutPixel_depthBuffer (dev : Device) (x y : Int) (c : Color4) :
    (PutPixel dev x y c).depthBuffer = dev.depthBuffer := rfl

@[simp] theorem PutPixel_deviceWidth (dev : Device) (x y : Int) (c : Color4) :
    (PutPixel dev x y c).deviceWidth = dev.deviceWidth := rfl

@[simp] theorem PutPixel_deviceHeight (dev : Device) (x y : Int) (c : Color4) :
    (PutPixel dev x y c).deviceHeight = dev.deviceHeight := rfl

@[simp] theorem PutPixel_depthBufferSize (dev : Device) (x y : Int) (c : Color4) :
    (PutPixel dev x y c).depthBufferSize = dev.depthBufferSize := rfl

@[simp] theorem PutPixel_depthAt (dev : Device) (x y : Int) (c : Color4) (j : Int) :
    (PutPixel dev x y c).depthAt j = dev.depthAt j := rfl

@[simp] theorem PutPixel_width (dev : Device) (x y : Int) (c : Color4) :
    (PutPixel dev x y c).backBuffer.width = dev.backBuffer.width := by
  simp [PutPixel]

@[simp] theorem PutPixel_height (dev : Device) (x y : Int) (c : Color4) :
    (PutPixel dev x y c).backBuffer.height = dev.backBuffer.height := by
  simp [PutPixel]

@[simp] theorem PutPixel_scanLineSize (dev : Device) (x y : Int) (c : Color4) :
    (PutPixel dev x y c).backBuffer.scanLineSize = dev.backBuffer.scanLineSize := by
  simp [PutPixel]

@[simp] theorem PutPixel_signedCells (dev : Device) (x y : Int) (c : Color4) :
    (PutPixel dev x y c).backBuffer.signedCells = dev.backBuffer.signedCells := by
  simp [PutPixel]

@[simp] theorem PutPixel_store (dev : Device) (x y : Int) (c : Color4) (n : Int) :
    (PutPixel dev x y c).backBuffer.store n = dev.backBuffer.store n := by
  simp [PutPixel]

@[simp] theorem PutPixel_length (dev : Device) (x y : Int) (c : Color4) :
    (PutPixel dev x y c).backBuffer.cells.length = dev.backBuffer.cells.length := by
  simp [PutPixel]

/-- The cells of the back buffer after `PutPixel`: the four bytes of the pixel
hold the blend of the matching channel over the byte they held, every other
cell is as before. -/
theorem read_PutPixel (dev : Device) (x y : Int) (c : Color4) (j : Int) :
    (PutPixel dev x y c).backBuffer.read j =
      if (x * 4 + y * dev.backBuffer.scanLineSize ≤ j ∧
          j ≤ x * 4 + y * dev.backBuffer.scanLineSize + 3) ∧
          0 ≤ j ∧ j.toNat < dev.backBuffer.cells.length then
        dev.backBuffer.store
          (blend (channel c (j - (x * 4 + y * dev.backBuffer.scanLineSize))) c.Alpha
            (dev.backBuffer.read j))
      else dev.backBuffer.read j := by
  simp only [PutPixel, BackBuffer.read_write, BackBuffer.write_length, BackBuffer.write_store]
  generalize x * 4 + y * dev.backBuffer.scanLineSize = b
  have e1 : ¬ (b = b + 1) := by omega
  have e2 : ¬ (b = b + 2) := by omega
  have e3 : ¬ (b = b + 3) := by omega
  have e4 : ¬ (b + 1 = b + 2) := by omega
  have e5 : ¬ (b + 1 = b + 3) := by omega
  have e6 : ¬ (b + 2 = b + 3) := by omega
  simp only [e1, e2, e3, e4, e5, e6, false_and, if_false]
  by_cases h0 : b = j
  · subst h0
    have : ¬ (b + 1 = b) := by omega
    have : ¬ (b + 2 = b) := by omega
    have : ¬ (b + 3 = b) := by omega
    simp [*, channel]
  by_cases h1 : b + 1 = j
  · subst h1
    have : ¬ (b + 2 = b + 1) := by omega
    have : ¬ (b + 3 = b + 1) := by omega
    simp [*, channel]
  by_cases h2 : b + 2 = j
  · subst h2
    have : ¬ (b + 3 = b + 2) := by omega
    simp [*, channel]
  by_cases h3 : b + 3 = j
  · subst h3
    simp [*, channel]
  have : ¬ (b ≤ j ∧ j ≤ b + 3) := by omega
  simp [*]

end Device

end Engine

/-! ## `DrawPoint` -/

namespace Engine

namespace Device

/-- `DrawPoint` writes exactly when the point is in bounds and not farther than
the stored depth. -/
theorem DrawPoint_eq (dev : Device) (p : Vector3) (c : Color4) :
    DrawPoint dev p c =
      if inBounds dev p ∧ p.Z ≤ dev.depthAt (depthIndex dev p) then
        PutPixel (dev.setDepth (depthIndex dev p) p.Z) (toInt p.X) (toInt p.Y) c
      else dev := by
  unfold DrawPoint inBounds depthIndex
  by_cases h : p.X < 0 ∨ p.Y < 0 ∨ p.X ≥ dev.deviceWidth ∨ p.Y ≥ dev.deviceHeight
  · rw [if_pos h, if_neg]
    rintro ⟨⟨h1, h2, h3, h4⟩, -⟩
    rcases h with h | h | h | h
    · exact absurd h1 (not_le.mpr h)
    · exact absurd h2 (not_le.mpr h)
    · exact absurd h3 (not_lt.mpr h)
    · exact absurd h4 (not_lt.mpr h)
  · rw [if_neg h]
    simp only [not_or, not_lt, ge_iff_le, not_le] at h
    obtain ⟨h1, h2, h3, h4⟩ := h
    by_cases hz : p.Z > dev.depthAt (toInt p.X + toInt p.Y * dev.deviceWidth)
    · simp only [hz, if_true]
      rw [if_neg]
      rintro ⟨-, h5⟩
      exact absurd h5 (not_le.mpr hz)
    · simp only [hz, if_false]
      rw [if_pos]
      exact ⟨⟨h1, h2, h3, h4⟩, not_lt.mp hz⟩

/-- The sum of two `(char)` values stored in a byte is the sum of the two
truncations stored in a byte. -/
theorem store_blend (bb : BackBuffer) (src alpha : ℚ) (dst : Int) :
    bb.store (blend src alpha dst) = bb.store (toInt (src * 255) + toInt ((1 - alpha) * (dst : ℚ))) := by
  unfold BackBuffer.store blend toChar
  split <;> omega

/-- An in-bounds point has a depth index inside the depth buffer, and its byte
offset is four times that index. -/
theorem index_bounds {dev : Device} {p : Vector3} (hwf : WellFormed dev) (hin : inBounds dev p) :
    0 ≤ toInt p.X ∧ toInt p.X < dev.deviceWidth ∧ 0 ≤ toInt p.Y ∧ toInt p.Y < dev.deviceHeight ∧
    0 ≤ depthIndex dev p ∧ depthIndex dev p < dev.deviceWidth * dev.deviceHeight ∧
    byteIndex dev p = 4 * depthIndex dev p := by
  obtain ⟨hw, hh, -, -, -, -, hs, -⟩ := hwf
  obtain ⟨h1, h2, h3, h4⟩ := hin
  have x0 := toInt_nonneg h1
  have y0 := toInt_nonneg h2
  have x1 := toInt_lt_of_lt h1 h3
  have y1 := toInt_lt_of_lt h2 h4
  unfold depthIndex byteIndex
  rw [hs]
  refine ⟨x0, x1, y0, y1, ?_, ?_, by ring⟩
  · positivity
  · have : (toInt p.Y + 1) * dev.deviceWidth ≤ dev.deviceHeight * dev.deviceWidth :=
      mul_le_mul_of_nonneg_right (by omega) hw
    nlinarith

end Device

end Engine

/-! ## Claims about `DrawPoint` -/

namespace Engine

namespace Device

/-- The depth cells after `DrawPoint` on a well-formed device: the cell of the
point takes its `Z` when the point is in bounds and not farther, every other
cell is as before. -/
theorem depthAt_DrawPoint {dev : Device} (hwf : WellFormed dev) (p : Vector3) (c : Color4) (j : Int) :
    (DrawPoint dev p c).depthAt j =
      if (inBounds dev p ∧ p.Z ≤ dev.depthAt (depthIndex dev p)) ∧ depthIndex dev p = j then p.Z
      else dev.depthAt j := by
  rw [DrawPoint_eq]
  by_cases h : inBounds dev p ∧ p.Z ≤ dev.depthAt (depthIndex dev p)
  · rw [if_pos h, PutPixel_depthAt, depthAt_setDepth]
    obtain ⟨-, -, -, -, h0, h1, -⟩ := index_bounds hwf h.1
    have hl : (depthIndex dev p).toNat < dev.depthBuffer.length := by
      rw [hwf.2.2.2.1]; omega
    simp [h, h0, hl]
  · simp [h]

/-- The back-buffer cells after `DrawPoint` on a well-formed device. -/
theorem read_DrawPoint {dev : Device} (hwf : WellFormed dev) (p : Vector3) (c : Color4) (j : Int) :
    (DrawPoint dev p c).backBuffer.read j =
      if (inBounds dev p ∧ p.Z ≤ dev.depthAt (depthIndex dev p)) ∧
          byteIndex dev p ≤ j ∧ j ≤ byteIndex dev p + 3 then
        dev.backBuffer.store (blend (channel c (j - byteIndex dev p)) c.Alpha (dev.backBuffer.read j))
      else dev.backBuffer.read j := by
  rw [DrawPoint_eq]
  by_cases h : inBounds dev p ∧ p.Z ≤ dev.depthAt (depthIndex dev p)
  · rw [if_pos h, read_PutPixel]
    obtain ⟨-, -, -, -, h0, h1, h2⟩ := index_bounds hwf h.1
    simp only [setDepth_backBuffer]
    have e : toInt p.X * 4 + toInt p.Y * dev.backBuffer.scanLineSize = byteIndex dev p := rfl
    rw [e]
    by_cases hj : byteIndex dev p ≤ j ∧ j ≤ byteIndex dev p + 3
    · have hl : 0 ≤ j ∧ j.toNat < dev.backBuffer.cells.length := by
        rw [hwf.2.2.2.2.2.2.2]; omega
      simp [h, hj, hl]
    · simp [hj]
  · simp [h]

theorem DrawPoint_header (dev : Device) (p : Vector3) (c : Color4) :
    (DrawPoint dev p c).deviceWidth = dev.deviceWidth ∧
    (DrawPoint dev p c).deviceHeight = dev.deviceHeight ∧
    (DrawPoint dev p c).depthBufferSize = dev.depthBufferSize ∧
    (DrawPoint dev p c).depthBuffer.length = dev.depthBuffer.length ∧
    (DrawPoint dev p c).backBuffer.width = dev.backBuffer.width ∧
    (DrawPoint dev p c).backBuffer.height = dev.backBuffer.height ∧
    (DrawPoint dev p c).backBuffer.scanLineSize = dev.backBuffer.scanLineSize ∧
    (DrawPoint dev p c).backBuffer.signedCells = dev.backBuffer.signedCells ∧
    (DrawPoint dev p c).backBuffer.cells.length = dev.backBuffer.cells.length := by
  rw [DrawPoint_eq]
  split <;> simp

theorem DrawPoint_wellFormed {dev : Device} (hwf : WellFormed dev) (p : Vector3) (c : Color4) :
    WellFormed (DrawPoint dev p c) := by
  obtain ⟨h1, h2, h3, h4, h5, h6, h7, h8, h9⟩ := DrawPoint_header dev p c
  unfold WellFormed at *
  rw [h1, h2, h3, h4, h5, h6, h7, h9]
  exact hwf

/-- C1: for every out-of-bounds point (`X < 0`, `Y < 0`, `X >= width` or
`Y >= height`), every colour and every device state, `DrawPoint` leaves the
framebuffer and the depth buffer exactly as they were. -/
theorem DrawPoint_out_of_bounds (dev : Device) (point : Vector3) (color : Color4)
    (h : point.X < 0 ∨ point.Y < 0 ∨ point.X ≥ dev.deviceWidth ∨ point.Y ≥ dev.deviceHeight) :
    (DrawPoint dev point color).backBuffer = dev.backBuffer ∧
    (DrawPoint dev point color).depthBuffer = dev.depthBuffer := by
  unfold DrawPoint
  rw [if_pos h]
  exact ⟨rfl, rfl⟩

theorem DrawPoint_out_of_bounds_witness :
    ((⟨5, 0, 0⟩ : Vector3).X ≥ (create true 2 2).deviceWidth) ∧
    (DrawPoint (create true 2 2) ⟨5, 0, 0⟩ ⟨1, 1, 1, 1⟩).backBuffer = (create true 2 2).backBuffer ∧
    (DrawPoint (create true 2 2) ⟨5, 0, 0⟩ ⟨1, 1, 1, 1⟩).depthBuffer = (create true 2 2).depthBuffer :=
  ⟨by decide!, DrawPoint_out_of_bounds (create true 2 2) ⟨5, 0, 0⟩ ⟨1, 1, 1, 1⟩
    (Or.inr (Or.inr (Or.inl (by decide!))))⟩

/-- C2: for every in-bounds point whose `Z` is greater than the depth stored for
its pixel, `DrawPoint` changes neither the framebuffer nor the depth buffer. -/
theorem DrawPoint_farther (dev : Device) (point : Vector3) (color : Color4)
    (hin : inBounds dev point) (hz : point.Z > dev.depthAt (depthIndex dev point)) :
    (DrawPoint dev point color).backBuffer = dev.backBuffer ∧
    (DrawPoint dev point color).depthBuffer = dev.depthBuffer := by
  obtain ⟨h1, h2, h3, h4⟩ := hin
  have hclip : ¬ (point.X < 0 ∨ point.Y < 0 ∨ point.X ≥ dev.deviceWidth ∨
      point.Y ≥ dev.deviceHeight) := by
    simp only [not_or, not_lt, ge_iff_le, not_le]
    exact ⟨h1, h2, h3, h4⟩
  have hz2 : point.Z > dev.depthAt (toInt point.X + toInt point.Y * dev.deviceWidth) := hz
  unfold DrawPoint
  rw [if_neg hclip]
  rw [if_pos hz2]
  exact ⟨rfl, rfl⟩

theorem DrawPoint_farther_witness :
    inBounds (create true 2 2) ⟨1, 1, 5⟩ ∧
    (⟨1, 1, 5⟩ : Vector3).Z > (create true 2 2).depthAt (depthIndex (create true 2 2) ⟨1, 1, 5⟩) ∧
    (DrawPoint (create true 2 2) ⟨1, 1, 5⟩ ⟨1, 1, 1, 1⟩).backBuffer = (create true 2 2).backBuffer ∧
    (DrawPoint (create true 2 2) ⟨1, 1, 5⟩ ⟨1, 1, 1, 1⟩).depthBuffer = (create true 2 2).depthBuffer :=
  ⟨by decide!, by decide!,
    DrawPoint_farther (create true 2 2) ⟨1, 1, 5⟩ ⟨1, 1, 1, 1⟩ (by decide!) (by decide!)⟩

/-- C3: for every in-bounds point whose `Z` is strictly less than the depth
stored for its pixel, on a well-formed device, `DrawPoint` sets the depth cell
`x + y * width` of the pixel to `Z` and replaces the four framebuffer bytes of
the pixel, at `x * 4 + y * width * 4 + 0..3`, with the blend `PutPixel`
computes: `trunc(c * 255) + trunc((1 - Alpha) * old)` reduced to 8 bits, where
`c` is Blue, Green, Red, Alpha in this order and `old` the byte held before;
every other depth cell and every other framebuffer byte is unchanged, and no
buffer changes its size. -/
theorem DrawPoint_nearer (dev : Device) (point : Vector3) (color : Color4)
    (hwf : WellFormed dev) (hin : inBounds dev point)
    (hz : point.Z < dev.depthAt (depthIndex dev point)) :
    depthIndex dev point = toInt point.X + toInt point.Y * dev.deviceWidth ∧
    byteIndex dev point = toInt point.X * 4 + toInt point.Y * (dev.deviceWidth * 4) ∧
    (DrawPoint dev point color).depthAt (depthIndex dev point) = point.Z ∧
    (∀ j, j ≠ depthIndex dev point → (DrawPoint dev point color).depthAt j = dev.depthAt j) ∧
    (DrawPoint dev point color).backBuffer.read (byteIndex dev point) =
      dev.backBuffer.store (toInt (color.Blue * 255) +
        toInt ((1 - color.Alpha) * ((dev.backBuffer.read (byteIndex dev point) : Int) : ℚ))) ∧
    (DrawPoint dev point color).backBuffer.read (byteIndex dev point + 1) =
      dev.backBuffer.store (toInt (color.Green * 255) +
        toInt ((1 - color.Alpha) * ((dev.backBuffer.read (byteIndex dev point + 1) : Int) : ℚ))) ∧
    (DrawPoint dev point color).backBuffer.read (byteIndex dev point + 2) =
      dev.backBuffer.store (toInt (color.Red * 255) +
        toInt ((1 - color.Alpha) * ((dev.backBuffer.read (byteIndex dev point + 2) : Int) : ℚ))) ∧
    (DrawPoint dev point color).backBuffer.read (byteIndex dev point + 3) =
      dev.backBuffer.store (toInt (color.Alpha * 255) +
        toInt ((1 - color.Alpha) * ((dev.backBuffer.read (byteIndex dev point + 3) : Int) : ℚ))) ∧
    (∀ n : Int, dev.backBuffer.store n % 256 = n % 256) ∧
    (∀ j, (j < byteIndex dev point ∨ byteIndex dev point + 3 < j) →
      (DrawPoint dev point color).backBuffer.read j = dev.backBuffer.read j) ∧
    (DrawPoint dev point color).depthBuffer.length = dev.depthBuffer.length ∧
    (DrawPoint dev point color).backBuffer.cells.length = dev.backBuffer.cells.length := by
  have hc : inBounds dev point ∧ point.Z ≤ dev.depthAt (depthIndex dev point) := ⟨hin, le_of_lt hz⟩
  obtain ⟨-, -, -, h4, -, -, -, -, h9⟩ := DrawPoint_header dev point color
  have hs : dev.backBuffer.scanLineSize = dev.deviceWidth * 4 := hwf.2.2.2.2.2.2.1
  have hread : ∀ k : Int, 0 ≤ k → k ≤ 3 →
      (DrawPoint dev point color).backBuffer.read (byteIndex dev point + k) =
        dev.backBuffer.store (toInt (channel color k * 255) +
          toInt ((1 - color.Alpha) *
            ((dev.backBuffer.read (byteIndex dev point + k) : Int) : ℚ))) := by
    intro k hk0 hk3
    rw [read_DrawPoint hwf, if_pos ⟨hc, by omega, by omega⟩, store_blend]
    simp
  have hmod : ∀ n : Int, dev.backBuffer.store n % 256 = n % 256 := by
    intro n
    unfold BackBuffer.store
    split <;> omega
  refine ⟨rfl, by unfold byteIndex; rw [hs], ?_, ?_, ?_, hread 1 (by decide) (by decide),
    hread 2 (by decide) (by decide), hread 3 (by decide) (by decide), hmod, ?_, h4, h9⟩
  · rw [depthAt_DrawPoint hwf]
    simp [hc]
  · intro j hj
    rw [depthAt_DrawPoint hwf, if_neg]
    rintro ⟨-, h⟩
    exact hj h.symm
  · have h0 := hread 0 (le_refl _) (by decide)
    rw [add_zero] at h0
    exact h0
  · intro j hj
    rw [read_DrawPoint hwf, if_neg]
    rintro ⟨-, h1, h2⟩
    omega

theorem DrawPoint_nearer_witness :
    WellFormed tintedDevice ∧ inBounds tintedDevice ⟨1, 1, -5⟩ ∧
    (⟨1, 1, -5⟩ : Vector3).Z < tintedDevice.depthAt (depthIndex tintedDevice ⟨1, 1, -5⟩) ∧
    (DrawPoint tintedDevice ⟨1, 1, -5⟩ ⟨1, 1 / 2, 0, 1 / 2⟩).backBuffer.read
        (byteIndex tintedDevice ⟨1, 1, -5⟩ + 2) =
      tintedDevice.backBuffer.store (toInt ((⟨1, 1 / 2, 0, 1 / 2⟩ : Color4).Red * 255) +
        toInt ((1 - (⟨1, 1 / 2, 0, 1 / 2⟩ : Color4).Alpha) *
          ((tintedDevice.backBuffer.read (byteIndex tintedDevice ⟨1, 1, -5⟩ + 2) : Int) : ℚ))) ∧
    byteIndex tintedDevice ⟨1, 1, -5⟩ = 12 ∧
    (tintedDevice.backBuffer.cells.drop 12).take 4 = [-103, 102, 51, -1] ∧
    ((DrawPoint tintedDevice ⟨1, 1, -5⟩ ⟨1, 1 / 2, 0, 1 / 2⟩).backBuffer.cells.drop 12).take 4 =
      [-51, -78, 24, 127] ∧
    (DrawPoint tintedDevice ⟨1, 1, -5⟩ ⟨1, 1 / 2, 0, 1 / 2⟩).backBuffer.cells.take 12 =
      tintedDevice.backBuffer.cells.take 12 ∧
    (DrawPoint tintedDevice ⟨1, 1, -5⟩ ⟨1, 1 / 2, 0, 1 / 2⟩).depthBuffer =
      [DBL_MAX, DBL_MAX, DBL_MAX, -5] :=
  ⟨by decide!, by decide!, by decide!,
    (DrawPoint_nearer tintedDevice ⟨1, 1, -5⟩ ⟨1, 1 / 2, 0, 1 / 2⟩ (by decide!) (by decide!)
      (by decide!)).2.2.2.2.2.2.1,
    by decide!, by decide!, by decide!, by decide!, by decide!⟩

/-- C4 (as amended): a depth tie is won by the later point.  For every in-bounds
point whose `Z` equals the depth stored for its pixel, `DrawPoint` leaves the
depth buffer unchanged and composites the colour into the pixel exactly as
`PutPixel` does, so a later primitive overwrites a pixel whenever it is at
least as close. -/
theorem DrawPoint_tie (dev : Device) (point : Vector3) (color : Color4)
    (hin : inBounds dev point) (hz : point.Z = dev.depthAt (depthIndex dev point)) :
    (DrawPoint dev point color).depthBuffer = dev.depthBuffer ∧
    (DrawPoint dev point color).backBuffer =
      (PutPixel dev (toInt point.X) (toInt point.Y) color).backBuffer := by
  rw [DrawPoint_eq, if_pos ⟨hin, le_of_eq hz⟩, hz, setDepth_depthAt_self]
  exact ⟨rfl, rfl⟩

theorem DrawPoint_tie_witness :
    inBounds tieDevice ⟨0, 0, 1⟩ ∧
    (DrawPoint tieDevice ⟨0, 0, 1⟩ ⟨0, 1, 0, 1⟩).depthBuffer = tieDevice.depthBuffer ∧
    (DrawPoint tieDevice ⟨0, 0, 1⟩ ⟨0, 1, 0, 1⟩).backBuffer =
      (PutPixel tieDevice (toInt 0) (toInt 0) ⟨0, 1, 0, 1⟩).backBuffer :=
  ⟨by decide!, DrawPoint_tie tieDevice ⟨0, 0, 1⟩ ⟨0, 1, 0, 1⟩ (by decide!) (by decide!)⟩

/-- C4 fails as stated: on a 1×1 device holding a red pixel at depth `1`, a
green point of the same depth `1` is in bounds, ties with the stored depth, and
still replaces the pixel. -/
theorem DrawPoint_tie_overwrites :
    inBounds tieDevice ⟨0, 0, 1⟩ ∧
    (⟨0, 0, 1⟩ : Vector3).Z = tieDevice.depthAt (depthIndex tieDevice ⟨0, 0, 1⟩) ∧
    tieDevice.backBuffer.cells = [0, 0, -1, -1] ∧
    (DrawPoint tieDevice ⟨0, 0, 1⟩ ⟨0, 1, 0, 1⟩).backBuffer.cells = [0, -1, 0, -1] ∧
    (DrawPoint tieDevice ⟨0, 0, 1⟩ ⟨0, 1, 0, 1⟩).backBuffer ≠ tieDevice.backBuffer := by
  decide!

end Device

end Engine

/-! ## `Clear` -/

namespace Engine

namespace Device

/-- The cell index of a pixel inside the device lies inside the buffer. -/
theorem cell_lt {w h x y : Int} (hw : 0 ≤ w) (hx0 : 0 ≤ x) (hx1 : x < w) (hy0 : 0 ≤ y)
    (hy1 : y < h) : 0 ≤ x + y * w ∧ x + y * w < w * h := by
  have h1 : (y + 1) * w ≤ h * w := mul_le_mul_of_nonneg_right (by omega) hw
  have h2 : 0 ≤ y * w := mul_nonneg hy0 hw
  constructor
  · omega
  · nlinarith

/-- The 8-bit cell written for `(char)d` is the one written for `(int)d`. -/
theorem store_toChar (bb : BackBuffer) (d : ℚ) : bb.store (toChar d) = bb.store (toInt d) := by
  unfold BackBuffer.store toChar
  split <;> omega

theorem clearPixel_header (c : Color4) (bb : BackBuffer) (i : Int) :
    (clearPixel c bb i).width = bb.width ∧ (clearPixel c bb i).height = bb.height ∧
    (clearPixel c bb i).scanLineSize = bb.scanLineSize ∧
    (clearPixel c bb i).signedCells = bb.signedCells ∧
    (clearPixel c bb i).cells.length = bb.cells.length := by
  simp [clearPixel]

/-- The cells after one iteration of the first loop of `Clear`. -/
theorem read_clearPixel (c : Color4) (bb : BackBuffer) (i j : Int) :
    (clearPixel c bb i).read j =
      if (i ≤ j ∧ j ≤ i + 3) ∧ 0 ≤ j ∧ j.toNat < bb.cells.length then
        bb.store (toInt (channel c (j - i) * 255))
      else bb.read j := by
  simp only [clearPixel, BackBuffer.read_write, BackBuffer.write_length, BackBuffer.write_store,
    store_toChar]
  by_cases h0 : i = j
  · subst h0
    have : ¬ (i + 1 = i) := by omega
    have : ¬ (i + 2 = i) := by omega
    have : ¬ (i + 3 = i) := by omega
    simp [*, channel]
  by_cases h1 : i + 1 = j
  · subst h1
    have : ¬ (i + 2 = i + 1) := by omega
    have : ¬ (i + 3 = i + 1) := by omega
    simp [*, channel]
  by_cases h2 : i + 2 = j
  · subst h2
    have : ¬ (i + 3 = i + 2) := by omega
    simp [*, channel]
  by_cases h3 : i + 3 = j
  · subst h3
    simp [*, channel]
  have : ¬ (i ≤ j ∧ j ≤ i + 3) := by omega
  simp [*]

/-- The back buffer after `n` iterations of the first loop of `Clear`. -/
theorem clearLoop_spec (c : Color4) (bb : BackBuffer) (n : Nat) :
    let r := (List.range n).foldl (fun bb (k : Nat) => clearPixel c bb (4 * (k : Int))) bb
    (r.width = bb.width ∧ r.height = bb.height ∧ r.scanLineSize = bb.scanLineSize ∧
      r.signedCells = bb.signedCells ∧ r.cells.length = bb.cells.length) ∧
    ∀ j : Int, r.read j =
      if (0 ≤ j ∧ j < 4 * (n : Int)) ∧ j.toNat < bb.cells.length then
        bb.store (toInt (channel c (j % 4) * 255))
      else bb.read j := by
  induction n with
  | zero =>
    refine ⟨by simp, ?_⟩
    intro j
    rw [if_neg (by omega)]
    rfl
  | succ n ih =>
    obtain ⟨⟨h1, h2, h3, h4, h5⟩, hr⟩ := ih
    simp only [List.range_succ, List.foldl_append, List.foldl_cons, List.foldl_nil]
    obtain ⟨g1, g2, g3, g4, g5⟩ := clearPixel_header c
      ((List.range n).foldl (fun bb (k : Nat) => clearPixel c bb (4 * (k : Int))) bb) (4 * (n : Int))
    refine ⟨⟨g1.trans h1, g2.trans h2, g3.trans h3, g4.trans h4, g5.trans h5⟩, ?_⟩
    intro j
    rw [read_clearPixel, hr j, h5]
    have hst : ∀ m, BackBuffer.store
        ((List.range n).foldl (fun bb (k : Nat) => clearPixel c bb (4 * (k : Int))) bb) m = bb.store m := by
      intro m
      unfold BackBuffer.store
      rw [h4]
    rw [hst]
    split_ifs <;> first
      | rfl
      | (exfalso; omega)
      | (have hm : j - 4 * (n : Int) = j % 4 := by omega
         rw [hm])

/-- The device after `n` iterations of the depth loop of `Clear`. -/
theorem clearDepth_spec (dev : Device) (n : Nat) :
    let r := (List.range n).foldl (fun d (index : Nat) => d.setDepth (index : Int) DBL_MAX) dev
    (r.deviceWidth = dev.deviceWidth ∧ r.deviceHeight = dev.deviceHeight ∧
      r.depthBufferSize = dev.depthBufferSize ∧ r.backBuffer = dev.backBuffer ∧
      r.depthBuffer.length = dev.depthBuffer.length) ∧
    ∀ j : Int, r.depthAt j =
      if (0 ≤ j ∧ j < (n : Int)) ∧ j.toNat < dev.depthBuffer.length then DBL_MAX
      else dev.depthAt j := by
  induction n with
  | zero =>
    refine ⟨by simp, ?_⟩
    intro j
    rw [if_neg (by omega)]
    rfl
  | succ n ih =>
    obtain ⟨⟨h1, h2, h3, h4, h5⟩, hr⟩ := ih
    simp only [List.range_succ, List.foldl_append, List.foldl_cons, List.foldl_nil]
    refine ⟨by simp [h1, h2, h3, h4, h5], ?_⟩
    intro j
    rw [depthAt_setDepth, hr j, h5]
    split_ifs <;> first
      | rfl
      | (exfalso; omega)

theorem Clear_backBuffer (dev : Device) (c : Color4) :
    (Clear dev c).backBuffer =
      (List.range ((dev.backBuffer.scanLineSize * dev.backBuffer.height + 3) / 4).toNat).foldl
        (fun bb (k : Nat) => clearPixel c bb (4 * (k : Int))) dev.backBuffer := by
  unfold Clear
  exact (clearDepth_spec _ _).1.2.2.2.1

theorem Clear_header (dev : Device) (c : Color4) :
    (Clear dev c).deviceWidth = dev.deviceWidth ∧
    (Clear dev c).deviceHeight = dev.deviceHeight ∧
    (Clear dev c).depthBufferSize = dev.depthBufferSize ∧
    (Clear dev c).depthBuffer.length = dev.depthBuffer.length ∧
    (Clear dev c).backBuffer.width = dev.backBuffer.width ∧
    (Clear dev c).backBuffer.height = dev.backBuffer.height ∧
    (Clear dev c).backBuffer.scanLineSize = dev.backBuffer.scanLineSize ∧
    (Clear dev c).backBuffer.signedCells = dev.backBuffer.signedCells ∧
    (Clear dev c).backBuffer.cells.length = dev.backBuffer.cells.length := by
  obtain ⟨h1, h2, h3, h4, h5⟩ := (clearLoop_spec c dev.backBuffer
    ((dev.backBuffer.scanLineSize * dev.backBuffer.height + 3) / 4).toNat).1
  rw [Clear_backBuffer]
  refine ⟨?_, ?_, ?_, ?_, h1, h2, h3, h4, h5⟩
  · exact (clearDepth_spec _ _).1.1
  · exact (clearDepth_spec _ _).1.2.1
  · exact (clearDepth_spec _ _).1.2.2.1
  · exact (clearDepth_spec _ _).1.2.2.2.2

theorem Clear_wellFormed {dev : Device} (hwf : WellFormed dev) (c : Color4) :
    WellFormed (Clear dev c) := by
  obtain ⟨h1, h2, h3, h4, h5, h6, h7, h8, h9⟩ := Clear_header dev c
  unfold WellFormed at *
  rw [h1, h2, h3, h4, h5, h6, h7, h9]
  exact hwf

theorem depthAt_Clear (dev : Device) (c : Color4) (j : Int) :
    (Clear dev c).depthAt j =
      if (0 ≤ j ∧ j < (dev.depthBufferSize.toNat : Int)) ∧ j.toNat < dev.depthBuffer.length then
        DBL_MAX
      else dev.depthAt j := by
  unfold Clear
  exact (clearDepth_spec _ _).2 j

/-- C5: after `Clear(color)` on a device of size `width × height` (row stride
`width * 4`), the four bytes of every pixel hold the 8-bit conversion of the
Blue, Green, Red and Alpha channel, in that order (the channel times 255,
truncated, stored in a byte), and each of the `width * height` depth cells
holds the largest finite double. -/
theorem Clear_fills (dev : Device) (fillColor : Color4) (hwf : WellFormed dev) :
    dev.backBuffer.scanLineSize = dev.deviceWidth * 4 ∧
    (∀ x y k : Int, 0 ≤ x → x < dev.deviceWidth → 0 ≤ y → y < dev.deviceHeight →
      0 ≤ k → k ≤ 3 →
      (Clear dev fillColor).backBuffer.read (x * 4 + y * dev.backBuffer.scanLineSize + k) =
        dev.backBuffer.store (toInt (channel fillColor k * 255))) ∧
    (Clear dev fillColor).depthBuffer.length = (dev.deviceWidth * dev.deviceHeight).toNat ∧
    (∀ i : Int, 0 ≤ i → i < dev.deviceWidth * dev.deviceHeight →
      (Clear dev fillColor).depthAt i = DBL_MAX) := by
  obtain ⟨hw, hh, hsz, hdl, hbw, hbh, hst, hcl⟩ := hwf
  refine ⟨hst, ?_, ?_, ?_⟩
  · intro x y k hx0 hx1 hy0 hy1 hk0 hk3
    rw [Clear_backBuffer, (clearLoop_spec _ _ _).2, hst, hbh, hcl]
    obtain ⟨hi0, hi1⟩ := cell_lt hw hx0 hx1 hy0 hy1
    have e1 : x * 4 + y * (dev.deviceWidth * 4) + k = 4 * (x + y * dev.deviceWidth) + k := by ring
    have e2 : dev.deviceWidth * 4 * dev.deviceHeight = 4 * (dev.deviceWidth * dev.deviceHeight) := by
      ring
    have e3 : dev.deviceWidth * dev.deviceHeight * 4 = 4 * (dev.deviceWidth * dev.deviceHeight) := by
      ring
    rw [e1, e2, e3]
    generalize dev.deviceWidth * dev.deviceHeight = n at hi1 ⊢
    generalize x + y * dev.deviceWidth = m at hi0 hi1 ⊢
    have hm : (4 * m + k) % 4 = k := by omega
    rw [hm, if_pos]
    omega
  · rw [(Clear_header dev fillColor).2.2.2.1, hdl]
  · intro i hi0 hi1
    rw [depthAt_Clear, if_pos]
    rw [hsz, hdl]
    omega

theorem Clear_fills_witness :
    WellFormed (create false 2 2) ∧
    (Clear (create false 2 2) ⟨1, 1/2, 0, 1⟩).backBuffer.cells =
      [0, 127, 255, 255, 0, 127, 255, 255, 0, 127, 255, 255, 0, 127, 255, 255] ∧
    (Clear (create false 2 2) ⟨1, 1/2, 0, 1⟩).depthAt 3 = DBL_MAX :=
  ⟨by decide!, by decide!,
    (Clear_fills (create false 2 2) ⟨1, 1/2, 0, 1⟩ (by decide!)).2.2.2 3 (by decide) (by decide!)⟩

end Device

end Engine

/-! ## Sequences of `DrawPoint` calls -/

namespace Engine

namespace Device

theorem drawPoints_nil (dev : Device) (c : Color4) : drawPoints dev [] c = dev := rfl

theorem drawPoints_cons (dev : Device) (p : Vector3) (ps : List Vector3) (c : Color4) :
    drawPoints dev (p :: ps) c = drawPoints (DrawPoint dev p c) ps c := rfl

theorem drawPoints_append (dev : Device) (ps qs : List Vector3) (c : Color4) :
    drawPoints dev (ps ++ qs) c = drawPoints (drawPoints dev ps c) qs c := by
  unfold drawPoints
  rw [List.foldl_append]

theorem drawPoints_eq_drawCalls (dev : Device) (ps : List Vector3) (c : Color4) :
    drawPoints dev ps c = drawCalls dev (ps.map fun p => (p, c)) := by
  unfold drawPoints drawCalls
  rw [List.foldl_map]

theorem ProcessScanLine_eq (dev : Device) (y : Int) (pa pb pc pd : Vector3) (c : Color4) :
    ProcessScanLine dev y pa pb pc pd c = drawPoints dev (scanLinePoints y pa pb pc pd) c := rfl

/-- Drawing row after row is drawing the concatenation of the rows. -/
theorem foldl_rows (f : Int → List Vector3) (c : Color4) (rows : List Int) (dev : Device) :
    rows.foldl (fun d (y : Int) => drawPoints d (f y) c) dev = drawPoints dev (rows.flatMap f) c := by
  induction rows generalizing dev with
  | nil => rfl
  | cons y rest ih =>
    rw [List.foldl_cons, ih, List.flatMap_cons, drawPoints_append]

/-- `RasterizeTriangle` is `DrawPoint` on each point of `trianglePoints`, in order. -/
theorem RasterizeTriangle_eq (dev : Device) (p1 p2 p3 : Vector3) (c : Color4) :
    RasterizeTriangle dev p1 p2 p3 c = drawPoints dev (trianglePoints p1 p2 p3) c := by
  unfold RasterizeTriangle trianglePoints
  simp only [ProcessScanLine_eq]
  split_ifs <;> first
    | rfl
    | (rw [← foldl_rows]
       congr 1
       funext d y
       split <;> rfl)

theorem inBounds_congr {a b : Device} (hw : a.deviceWidth = b.deviceWidth)
    (hh : a.deviceHeight = b.deviceHeight) (p : Vector3) : inBounds a p ↔ inBounds b p := by
  unfold inBounds
  rw [hw, hh]

theorem depthsAt_congr {a b : Device} (hw : a.deviceWidth = b.deviceWidth)
    (hh : a.deviceHeight = b.deviceHeight) (calls : List (Vector3 × Color4)) (x y : Int) :
    depthsAt a calls x y = depthsAt b calls x y := by
  unfold depthsAt
  congr 2
  funext pc
  simp only [inBounds_congr hw hh]

/-- Inside the device, the depth index determines the pixel. -/
theorem depthIndex_eq_iff {dev : Device} {p : Vector3} (hwf : WellFormed dev)
    (hin : inBounds dev p) {x y : Int} (hx0 : 0 ≤ x) (hx1 : x < dev.deviceWidth) :
    depthIndex dev p = x + y * dev.deviceWidth ↔ pixelOf p = (x, y) := by
  obtain ⟨h1, h2, h3, h4, -, -, -⟩ := index_bounds hwf hin
  unfold depthIndex pixelOf
  constructor
  · intro h
    have hy : toInt p.Y = y := by
      by_contra hne
      rcases lt_or_gt_of_ne hne with hlt | hgt
      · have : (toInt p.Y + 1) * dev.deviceWidth ≤ y * dev.deviceWidth :=
          mul_le_mul_of_nonneg_right (by omega) (by omega)
        nlinarith
      · have : (y + 1) * dev.deviceWidth ≤ toInt p.Y * dev.deviceWidth :=
          mul_le_mul_of_nonneg_right (by omega) (by omega)
        nlinarith
    rw [hy] at h
    have hx : toInt p.X = x := by omega
    rw [hx, hy]
  · intro h
    injection h with ha hb
    rw [ha, hb]

/-- The depth cell of a pixel after a sequence of `DrawPoint` calls is the
minimum of what it held and the `Z` of the in-bounds points drawn into it. -/
theorem depthAt_drawCalls (calls : List (Vector3 × Color4)) :
    ∀ dev : Device, WellFormed dev → ∀ x y : Int, 0 ≤ x → x < dev.deviceWidth →
      (drawCalls dev calls).depthAt (x + y * dev.deviceWidth) =
        (depthsAt dev calls x y).foldl min (dev.depthAt (x + y * dev.deviceWidth)) := by
  induction calls with
  | nil => intro dev _ x y _ _; rfl
  | cons pc rest ih =>
    intro dev hwf x y hx0 hx1
    obtain ⟨hw, hh, -⟩ := DrawPoint_header dev pc.1 pc.2
    have step : drawCalls dev (pc :: rest) = drawCalls (DrawPoint dev pc.1 pc.2) rest := rfl
    rw [step]
    have := ih (DrawPoint dev pc.1 pc.2) (DrawPoint_wellFormed hwf _ _) x y hx0 (by rw [hw]; exact hx1)
    rw [hw] at this
    rw [this, depthsAt_congr hw hh, depthAt_DrawPoint hwf]
    unfold depthsAt
    rw [List.filter_cons]
    by_cases hin : inBounds dev pc.1
    · by_cases hpix : pixelOf pc.1 = (x, y)
      · have hidx := (depthIndex_eq_iff hwf hin hx0 hx1).mpr hpix
        simp only [hin, hpix, and_self, decide_True, if_true, List.map_cons, List.foldl_cons, hidx,
          true_and, and_true]
        congr 1
        split
        · rename_i h; exact (min_eq_right h).symm
        · rename_i h; exact (min_eq_left (le_of_lt (not_le.mp h))).symm
      · have hidx : ¬ depthIndex dev pc.1 = x + y * dev.deviceWidth := fun h =>
          hpix ((depthIndex_eq_iff hwf hin hx0 hx1).mp h)
        simp [hin, hpix, hidx]
    · simp [hin]

end Device

end Engine

/-! ## The depth buffer holds the nearest depth -/

namespace Engine

namespace Device

theorem drawCalls_wellFormed (calls : List (Vector3 × Color4)) :
    ∀ dev : Device, WellFormed dev → WellFormed (drawCalls dev calls) := by
  induction calls with
  | nil => intro dev h; exact h
  | cons pc rest ih =>
    intro dev h
    exact ih _ (DrawPoint_wellFormed h _ _)

theorem DrawPoint_depthAt_le {dev : Device} (hwf : WellFormed dev) (p : Vector3) (c : Color4)
    (j : Int) : (DrawPoint dev p c).depthAt j ≤ dev.depthAt j := by
  rw [depthAt_DrawPoint hwf]
  split
  · rename_i h
    rw [← h.2]
    exact h.1.2
  · exact le_refl _

theorem drawCalls_depthAt_le (calls : List (Vector3 × Color4)) :
    ∀ dev : Device, WellFormed dev → ∀ j : Int, (drawCalls dev calls).depthAt j ≤ dev.depthAt j := by
  induction calls with
  | nil => intro dev _ j; exact le_refl _
  | cons pc rest ih =>
    intro dev h j
    exact le_trans (ih _ (DrawPoint_wellFormed h _ _) j) (DrawPoint_depthAt_le h _ _ j)

/-- Where every depth is a number the depth buffer holds the nearest depth:
after `Clear` followed by any sequence of `DrawPoint` calls, the depth cell of
each pixel is the minimum of the clear sentinel and the `Z` of all in-bounds
points submitted for that pixel; no sequence of `DrawPoint` calls increases a
depth cell; `RasterizeTriangle`, whose divisions are all guarded, is such a
sequence, and so is `DrawLine` when `delta(dx, dy)` is not zero. -/
theorem depth_minimum_of_numbers (dev : Device) (fillColor : Color4)
    (calls : List (Vector3 × Color4)) (hwf : WellFormed dev) :
    (∀ x y : Int, 0 ≤ x → x < dev.deviceWidth → 0 ≤ y → y < dev.deviceHeight →
      (drawCalls (Clear dev fillColor) calls).depthAt (x + y * dev.deviceWidth) =
        (depthsAt dev calls x y).foldl min DBL_MAX) ∧
    (∀ j : Int, (drawCalls dev calls).depthAt j ≤ dev.depthAt j) ∧
    (∀ (p1 p2 p3 : Vector3) (color : Color4),
      RasterizeTriangle dev p1 p2 p3 color =
        drawCalls dev ((trianglePoints p1 p2 p3).map fun p => (p, color))) ∧
    (∀ (sqrt : ℚ → ℚ) (fuel : Nat) (a b : Vector3) (color : Color4) (width : Int),
      lineDepthDenominator sqrt (lineSetup sqrt a b width) ≠ 0 →
      DrawLine sqrt fuel dev a b color width =
        (linePoints sqrt fuel a b width).map fun ps => drawCalls dev (ps.map fun p => (p, color))) := by
  refine ⟨?_, drawCalls_depthAt_le calls dev hwf, ?_, ?_⟩
  · intro x y hx0 hx1 hy0 hy1
    obtain ⟨hw, hh, -⟩ := Clear_header dev fillColor
    have h := depthAt_drawCalls calls (Clear dev fillColor) (Clear_wellFormed hwf fillColor) x y hx0
      (by rw [hw]; exact hx1)
    rw [hw] at h
    rw [h, depthsAt_congr hw hh, depthAt_Clear, if_pos]
    obtain ⟨hw0, -, hsz, hdl, -⟩ := hwf
    obtain ⟨hi0, hi1⟩ := cell_lt hw0 hx0 hx1 hy0 hy1
    rw [hsz, hdl]
    omega
  · intro p1 p2 p3 color
    rw [RasterizeTriangle_eq, drawPoints_eq_drawCalls]
  · intro sqrt fuel a b color width _
    unfold DrawLine
    congr 1
    funext ps
    exact drawPoints_eq_drawCalls dev ps color

theorem depth_minimum_of_numbers_example :
    WellFormed (create true 2 2) ∧
    (drawCalls (Clear (create true 2 2) ⟨0, 0, 0, 1⟩)
      [(⟨1, 1, 5⟩, ⟨1, 0, 0, 1⟩), (⟨1, 1, 3⟩, ⟨0, 1, 0, 1⟩), (⟨1, 1, 4⟩, ⟨0, 0, 1, 1⟩)]).depthAt
        (1 + 1 * (create true 2 2).deviceWidth) =
      (depthsAt (create true 2 2)
        [(⟨1, 1, 5⟩, ⟨1, 0, 0, 1⟩), (⟨1, 1, 3⟩, ⟨0, 1, 0, 1⟩), (⟨1, 1, 4⟩, ⟨0, 0, 1, 1⟩)] 1 1).foldl
        min DBL_MAX ∧
    (depthsAt (create true 2 2)
        [(⟨1, 1, 5⟩, ⟨1, 0, 0, 1⟩), (⟨1, 1, 3⟩, ⟨0, 1, 0, 1⟩), (⟨1, 1, 4⟩, ⟨0, 0, 1, 1⟩)] 1 1).foldl
        min DBL_MAX = 3 :=
  ⟨by decide!,
    (depth_minimum_of_numbers (create true 2 2) ⟨0, 0, 0, 1⟩
      [(⟨1, 1, 5⟩, ⟨1, 0, 0, 1⟩), (⟨1, 1, 3⟩, ⟨0, 1, 0, 1⟩), (⟨1, 1, 4⟩, ⟨0, 0, 1, 1⟩)]
      (by decide!)).1 1 1 (by decide) (by decide) (by decide) (by decide),
    by decide!⟩

/-! ## The depth of a zero-length line -/

/-- Where the depth is a number, `lineDepth` is the depth the pass hands to
`DrawPoint` in `linePass`. -/
theorem lineDepth_num (sqrt : ℚ → ℚ) (s : LineSetup) (x y : Int)
    (h : delta sqrt s.dx s.dy ≠ 0) :
    lineDepth sqrt s x y = Depth.num
      (Interpolate s.zA s.zB (delta sqrt (x - s.x0) (y - s.y0) / delta sqrt s.dx s.dy)) := by
  unfold lineDepth Depth.div
  rw [if_neg h]
  rfl

/-- The depth of a pass is NaN exactly when `delta(dx, dy)` is zero and either
the numerator of `t` is zero too (`0.0 / 0.0`) or both endpoints have the same
`Z` (zero times infinity). -/
theorem lineDepth_nan (sqrt : ℚ → ℚ) (s : LineSetup) (x y : Int) :
    lineDepth sqrt s x y = Depth.nan ↔
      delta sqrt s.dx s.dy = 0 ∧ (delta sqrt (x - s.x0) (y - s.y0) = 0 ∨ s.zB - s.zA = 0) := by
  unfold lineDepth Depth.div
  by_cases hd : delta sqrt s.dx s.dy = 0
  · by_cases hn : delta sqrt (x - s.x0) (y - s.y0) = 0
    · simp [hd, hn, Depth.scale, Depth.shift]
    · by_cases hz : s.zB - s.zA = 0
      · simp [hd, hn, hz, Depth.scale, Depth.shift]
      · simp [hd, hn, hz, Depth.scale, Depth.shift]
  · simp [hd, Depth.scale, Depth.shift]

/-- No double is greater than NaN and NaN is greater than no double, so the
depth test of `DrawPoint` discards neither a NaN nor a point that meets a
stored NaN. -/
theorem gt_nan (d : Depth) : Depth.gt Depth.nan d = false ∧ Depth.gt d Depth.nan = false := by
  cases d <;> exact ⟨rfl, rfl⟩

/-- On numbers the depth statements act as `DrawPoint` does on its depth
buffer. -/
theorem DrawPointDepth_num (dev : Device) (p : Vector3) (c : Color4) :
    DrawPointDepth dev.deviceWidth dev.deviceHeight (dev.depthBuffer.map Depth.num)
      p.X p.Y (Depth.num p.Z) = (DrawPoint dev p c).depthBuffer.map Depth.num := by
  unfold DrawPointDepth DrawPoint
  by_cases h : p.X < 0 ∨ p.Y < 0 ∨ p.X ≥ dev.deviceWidth ∨ p.Y ≥ dev.deviceHeight
  · rw [if_pos h, if_pos h]
  · rw [if_neg h, if_neg h]
    simp only
    by_cases h0 : 0 ≤ toInt p.X + toInt p.Y * dev.deviceWidth
    · simp only [h0, if_true, depthAt, setDepth, Depth.gt]
      have e : (List.map Depth.num dev.depthBuffer).getD
          (toInt p.X + toInt p.Y * dev.deviceWidth).toNat (Depth.num 0) =
          Depth.num (dev.depthBuffer.getD (toInt p.X + toInt p.Y * dev.deviceWidth).toNat 0) := by
        simp [List.getD_eq_getElem?_getD, List.getElem?_map]
      rw [e]
      simp only [Depth.gt, decide_eq_true_eq]
      by_cases hz : p.Z > dev.depthBuffer.getD (toInt p.X + toInt p.Y * dev.deviceWidth).toNat 0
      · rw [if_pos hz, if_pos hz]
      · rw [if_neg hz, if_neg hz]
        simp [PutPixel, List.map_set]
    · simp only [h0, if_false, depthAt, setDepth, Depth.gt, decide_eq_true_eq]
      by_cases hz : p.Z > 0
      · rw [if_pos hz, if_pos hz]
      · rw [if_neg hz, if_neg hz]
        simp [PutPixel]


/-- C6 fails on the code.  On a cleared 4×4 device the point `(1, 2, 5)` is
drawn, then the line from `(1.5, 2.5, 7)` to `(1.75, 2.25, 9)` of width 1, then
the point `(1, 2, 100)`.  Both ends of the line fall in pixel `(1, 2)`, so the
line hands exactly one point to `DrawPoint`, in that pixel, and its depth is
the quotient of `delta(0, 0) = 0` by `delta(0, 0) = 0`, NaN.  NaN is not
greater than the stored `5`, so it is stored; `100` is not greater than NaN,
so it is stored too.  Depth cell `1 + 2 * 4` thus goes from the sentinel to
`5`, to NaN and to `100`: it grows without a `Clear`, and it ends above `5`,
the minimum of the sentinel and the numbers submitted for the pixel. -/
theorem depth_invariant_zero_length_line :
    (linePoints sqrtDown 4 shortA shortB 1).map (fun ps => ps.map pixelOf) = some [(1, 2)] ∧
    delta sqrtDown (1 - (lineSetup sqrtDown shortA shortB 1).x0)
      (2 - (lineSetup sqrtDown shortA shortB 1).y0) = 0 ∧
    lineDepthDenominator sqrtDown (lineSetup sqrtDown shortA shortB 1) = 0 ∧
    lineDepth sqrtDown (lineSetup sqrtDown shortA shortB 1) 1 2 = Depth.nan ∧
    clearedDepths.getD 9 (Depth.num 0) = Depth.num DBL_MAX ∧
    drawDepths 4 4 clearedDepths [(1, 2, Depth.num 5)] =
      (DrawPoint (Clear (create true 4 4) ⟨0, 0, 0, 1⟩) ⟨1, 2, 5⟩ ⟨1, 0, 0, 1⟩).depthBuffer.map
        Depth.num ∧
    (drawDepths 4 4 clearedDepths [(1, 2, Depth.num 5)]).getD 9 (Depth.num 0) = Depth.num 5 ∧
    (drawDepths 4 4 clearedDepths
      [(1, 2, Depth.num 5),
        (1, 2, lineDepth sqrtDown (lineSetup sqrtDown shortA shortB 1) 1 2)]).getD 9 (Depth.num 0) =
      Depth.nan ∧
    (drawDepths 4 4 clearedDepths
      [(1, 2, Depth.num 5),
        (1, 2, lineDepth sqrtDown (lineSetup sqrtDown shortA shortB 1) 1 2),
        (1, 2, Depth.num 100)]).getD 9 (Depth.num 0) = Depth.num 100 ∧
    ([5, 100] : List ℚ).foldl min DBL_MAX = 5 ∧ (5 : ℚ) < 100 := by
  decide!

/-! ## The degenerate-triangle guard -/

/-- After the three compare-swaps the first point has the smallest `Y` and the
third the largest. -/
theorem sortPoints_Y (p1 p2 p3 : Vector3) :
    (sortPoints p1 p2 p3).1.Y = min p1.Y (min p2.Y p3.Y) ∧
    (sortPoints p1 p2 p3).2.2.Y = max p1.Y (max p2.Y p3.Y) := by
  unfold sortPoints
  simp only [min_def, max_def]
  split_ifs <;> constructor <;> first | rfl | linarith

/-- C10: for every three points whose largest and smallest `Y` differ by less
than `0.2`, and every colour and device state, `RasterizeTriangle` performs no
buffer write: framebuffer and depth buffer are unchanged. -/
theorem RasterizeTriangle_degenerate (dev : Device) (p1 p2 p3 : Vector3) (color : Color4)
    (h : max p1.Y (max p2.Y p3.Y) - min p1.Y (min p2.Y p3.Y) < 2 / 10) :
    trianglePoints p1 p2 p3 = [] ∧
    (RasterizeTriangle dev p1 p2 p3 color).backBuffer = dev.backBuffer ∧
    (RasterizeTriangle dev p1 p2 p3 color).depthBuffer = dev.depthBuffer := by
  obtain ⟨h1, h3⟩ := sortPoints_Y p1 p2 p3
  have hle : min p1.Y (min p2.Y p3.Y) ≤ max p1.Y (max p2.Y p3.Y) :=
    le_trans (min_le_left _ _) (le_max_left _ _)
  have hg : |(sortPoints p1 p2 p3).1.Y - (sortPoints p1 p2 p3).2.2.Y| < 2 / 10 := by
    rw [h1, h3, abs_lt]
    constructor <;> linarith
  have hp : trianglePoints p1 p2 p3 = [] := by
    unfold trianglePoints
    simp only [hg, if_true]
  refine ⟨hp, ?_, ?_⟩ <;> rw [RasterizeTriangle_eq, hp] <;> rfl

theorem RasterizeTriangle_degenerate_witness :
    (max (1 : ℚ) (max (11 / 10) (21 / 20)) - min (1 : ℚ) (min (11 / 10) (21 / 20)) < 2 / 10) ∧
    (RasterizeTriangle (create true 4 4) ⟨0, 1, 0⟩ ⟨3, 11 / 10, -1⟩ ⟨1, 21 / 20, -2⟩
      ⟨1, 1, 1, 1⟩).depthBuffer = (create true 4 4).depthBuffer :=
  ⟨by decide!,
    (RasterizeTriangle_degenerate (create true 4 4) ⟨0, 1, 0⟩ ⟨3, 11 / 10, -1⟩ ⟨1, 21 / 20, -2⟩
      ⟨1, 1, 1, 1⟩ (by decide!)).2.2⟩

end Device

end Engine

/-! ## Vertex order of a triangle -/

namespace Engine

namespace Device

/-- When the three `Y` values differ pairwise, the compare-swaps give the same
order for a triangle and for its rotation. -/
theorem sortPoints_rotate (a b c : Vector3) (hab : a.Y ≠ b.Y) (hbc : b.Y ≠ c.Y)
    (hac : a.Y ≠ c.Y) : sortPoints b c a = sortPoints a b c := by
  rcases lt_or_gt_of_ne hab with h1 | h1 <;> rcases lt_or_gt_of_ne hbc with h2 | h2 <;>
    rcases lt_or_gt_of_ne hac with h3 | h3 <;>
    first
      | (exfalso; linarith)
      | (have n1 := lt_asymm h1
         have n2 := lt_asymm h2
         have n3 := lt_asymm h3
         simp [sortPoints, h1, h2, h3, n1, n2, n3])

/-- For a triangle whose vertices have pairwise different `Y`, the three cyclic
vertex orders are rasterized identically. -/
theorem RasterizeTriangle_rotate (dev : Device) (a b c : Vector3) (color : Color4)
    (hab : a.Y ≠ b.Y) (hbc : b.Y ≠ c.Y) (hac : a.Y ≠ c.Y) :
    RasterizeTriangle dev b c a color = RasterizeTriangle dev a b c color ∧
    RasterizeTriangle dev c a b color = RasterizeTriangle dev a b c color := by
  have e1 : sortPoints b c a = sortPoints a b c := sortPoints_rotate a b c hab hbc hac
  have e2 : sortPoints c a b = sortPoints b c a :=
    sortPoints_rotate b c a hbc (Ne.symm hac) (Ne.symm hab)
  constructor
  · unfold RasterizeTriangle
    rw [e1]
  · unfold RasterizeTriangle
    rw [e2, e1]

/-- C8 (the code at the failing input): the triangle `apexPoint`, `rightPoint`,
`leftPoint` lies wholly above the screen and has a horizontal bottom edge at
`Y = -1/2`.  Rasterized in the order (apex, right, left) it writes pixel
`(2, 0)`; in the rotated order (left, apex, right) it writes pixel `(7, 0)`
instead, so the two results differ. -/
theorem RasterizeTriangle_rotation_differs :
    trianglePoints apexPoint rightPoint leftPoint = [⟨4, -1, 0⟩, ⟨5, -1, 0⟩, ⟨2, 0, 0⟩] ∧
    trianglePoints leftPoint apexPoint rightPoint = [⟨4, -1, 0⟩, ⟨5, -1, 0⟩, ⟨7, 0, 0⟩] ∧
    (RasterizeTriangle rowDevice apexPoint rightPoint leftPoint ⟨1, 1, 1, 1⟩).depthAt 2 = 0 ∧
    (RasterizeTriangle rowDevice leftPoint apexPoint rightPoint ⟨1, 1, 1, 1⟩).depthAt 2 = DBL_MAX ∧
    (RasterizeTriangle rowDevice apexPoint rightPoint leftPoint ⟨1, 1, 1, 1⟩).backBuffer ≠
      (RasterizeTriangle rowDevice leftPoint apexPoint rightPoint ⟨1, 1, 1, 1⟩).backBuffer := by
  decide!

end Device

end Engine

/-! ## Draw order of opaque primitives -/

namespace Engine

namespace Device

theorem toChar_zero : toChar 0 = 0 := by
  unfold toChar toInt
  simp

/-- An opaque colour replaces the byte whatever it held. -/
theorem blend_opaque (src : ℚ) (dst : Int) : blend src 1 dst = toChar (src * 255) := by
  unfold blend
  simp [toChar_zero]

@[simp] theorem inBounds_DrawPoint (dev : Device) (p : Vector3) (c : Color4) (q : Vector3) :
    inBounds (DrawPoint dev p c) q ↔ inBounds dev q :=
  inBounds_congr (DrawPoint_header dev p c).1 (DrawPoint_header dev p c).2.1 q

@[simp] theorem depthIndex_DrawPoint (dev : Device) (p : Vector3) (c : Color4) (q : Vector3) :
    depthIndex (DrawPoint dev p c) q = depthIndex dev q := by
  unfold depthIndex
  rw [(DrawPoint_header dev p c).1]

@[simp] theorem byteIndex_DrawPoint (dev : Device) (p : Vector3) (c : Color4) (q : Vector3) :
    byteIndex (DrawPoint dev p c) q = byteIndex dev q := by
  unfold byteIndex
  rw [(DrawPoint_header dev p c).2.2.2.2.2.2.1]

@[simp] theorem store_DrawPoint (dev : Device) (p : Vector3) (c : Color4) (n : Int) :
    (DrawPoint dev p c).backBuffer.store n = dev.backBuffer.store n := by
  unfold BackBuffer.store
  rw [(DrawPoint_header dev p c).2.2.2.2.2.2.2.1]

/-- Two in-bounds points with the same depth index fall in the same pixel. -/
theorem pixelOf_eq_of_depthIndex_eq {dev : Device} {p q : Vector3} (hwf : WellFormed dev)
    (hp : inBounds dev p) (hq : inBounds dev q) (h : depthIndex dev p = depthIndex dev q) :
    pixelOf p = pixelOf q := by
  obtain ⟨h1, h2, -⟩ := index_bounds hwf hq
  exact (depthIndex_eq_iff hwf hp h1 h2).mp h

/-- The depth cells after two `DrawPoint` calls do not depend on their order
when the first point is nearer wherever the two fall in the same pixel. -/
theorem depthAt_DrawPoint_comm {dev : Device} (hwf : WellFormed dev) (p q : Vector3)
    (c1 c2 : Color4)
    (h : inBounds dev p → inBounds dev q → pixelOf p = pixelOf q → p.Z < q.Z) (j : Int) :
    (DrawPoint (DrawPoint dev p c1) q c2).depthAt j =
      (DrawPoint (DrawPoint dev q c2) p c1).depthAt j := by
  have w1 := DrawPoint_wellFormed hwf p c1
  have w2 := DrawPoint_wellFormed hwf q c2
  simp only [depthAt_DrawPoint w1, depthAt_DrawPoint w2, depthAt_DrawPoint hwf, inBounds_DrawPoint,
    depthIndex_DrawPoint]
  by_cases hi : depthIndex dev p = depthIndex dev q
  · by_cases hP : inBounds dev p
    · by_cases hQ : inBounds dev q
      · have hz := h hP hQ (pixelOf_eq_of_depthIndex_eq hwf hP hQ hi)
        simp only [hP, hQ, true_and, hi, and_true]
        by_cases hj : depthIndex dev q = j
        · simp only [hj, and_true]
          generalize dev.depthAt j = dj
          split_ifs <;> first | rfl | linarith
        · simp only [hj, and_false, if_false]
      · simp [hQ]
    · simp [hP]
  · have hi2 : ¬ depthIndex dev q = depthIndex dev p := fun e => hi e.symm
    simp only [hi, hi2, and_false, if_false]
    split_ifs <;> first | rfl | (exfalso; omega)

/-- The back-buffer cells after two `DrawPoint` calls do not depend on their
order when the first point is opaque and nearer wherever the two fall in the
same pixel. -/
theorem read_DrawPoint_comm {dev : Device} (hwf : WellFormed dev) (p q : Vector3)
    (c1 c2 : Color4) (ha : c1.Alpha = 1)
    (h : inBounds dev p → inBounds dev q → pixelOf p = pixelOf q → p.Z < q.Z) (j : Int) :
    (DrawPoint (DrawPoint dev p c1) q c2).backBuffer.read j =
      (DrawPoint (DrawPoint dev q c2) p c1).backBuffer.read j := by
  have w1 := DrawPoint_wellFormed hwf p c1
  have w2 := DrawPoint_wellFormed hwf q c2
  simp only [read_DrawPoint w1, read_DrawPoint w2, read_DrawPoint hwf, depthAt_DrawPoint hwf,
    inBounds_DrawPoint, depthIndex_DrawPoint, byteIndex_DrawPoint, store_DrawPoint, ha,
    blend_opaque]
  by_cases hP : inBounds dev p
  · by_cases hQ : inBounds dev q
    · obtain ⟨-, -, -, -, -, -, bp⟩ := index_bounds hwf hP
      obtain ⟨-, -, -, -, -, -, bq⟩ := index_bounds hwf hQ
      by_cases hi : depthIndex dev p = depthIndex dev q
      · have hz := h hP hQ (pixelOf_eq_of_depthIndex_eq hwf hP hQ hi)
        have hb : byteIndex dev p = byteIndex dev q := by rw [bp, bq, hi]
        simp only [hP, hQ, true_and, hi, hb, and_true]
        by_cases hr : byteIndex dev q ≤ j ∧ j ≤ byteIndex dev q + 3
        · simp only [hr, and_self, and_true]
          generalize dev.depthAt (depthIndex dev q) = d0
          split_ifs <;> first | rfl | (exfalso; linarith)
        · simp only [hr, and_false, if_false]
      · have hi2 : ¬ depthIndex dev q = depthIndex dev p := fun e => hi e.symm
        simp only [hP, hQ, true_and, hi, hi2, and_false, if_false]
        by_cases hrp : byteIndex dev p ≤ j ∧ j ≤ byteIndex dev p + 3
        · have hrq : ¬ (byteIndex dev q ≤ j ∧ j ≤ byteIndex dev q + 3) := by omega
          simp only [hrp, hrq, and_false, and_true, if_false]
        · simp only [hrp, and_false, if_false]
    · simp [hQ]
  · simp [hP]

/-- Two `DrawPoint` calls commute when the first point is opaque and nearer
wherever the two fall in the same pixel. -/
theorem DrawPoint_comm {dev : Device} (hwf : WellFormed dev) (p q : Vector3)
    (c1 c2 : Color4) (ha : c1.Alpha = 1)
    (h : inBounds dev p → inBounds dev q → pixelOf p = pixelOf q → p.Z < q.Z) :
    DrawPoint (DrawPoint dev p c1) q c2 = DrawPoint (DrawPoint dev q c2) p c1 := by
  obtain ⟨a1, a2, a3, a4, a5, a6, a7, a8, a9⟩ := DrawPoint_header (DrawPoint dev p c1) q c2
  obtain ⟨b1, b2, b3, b4, b5, b6, b7, b8, b9⟩ := DrawPoint_header dev p c1
  obtain ⟨e1, e2, e3, e4, e5, e6, e7, e8, e9⟩ := DrawPoint_header (DrawPoint dev q c2) p c1
  obtain ⟨f1, f2, f3, f4, f5, f6, f7, f8, f9⟩ := DrawPoint_header dev q c2
  apply ext_depthAt
  · rw [a1, b1, e1, f1]
  · rw [a2, b2, e2, f2]
  · rw [a3, b3, e3, f3]
  · apply BackBuffer.ext_read
    · rw [a5, b5, e5, f5]
    · rw [a6, b6, e6, f6]
    · rw [a7, b7, e7, f7]
    · rw [a8, b8, e8, f8]
    · rw [a9, b9, e9, f9]
    · exact read_DrawPoint_comm hwf p q c1 c2 ha h
  · rw [a4, b4, e4, f4]
  · exact depthAt_DrawPoint_comm hwf p q c1 c2 h

theorem drawPoints_header (ps : List Vector3) (c : Color4) :
    ∀ dev : Device, (drawPoints dev ps c).deviceWidth = dev.deviceWidth ∧
      (drawPoints dev ps c).deviceHeight = dev.deviceHeight ∧
      (drawPoints dev ps c).backBuffer.scanLineSize = dev.backBuffer.scanLineSize ∧
      (drawPoints dev ps c).backBuffer.signedCells = dev.backBuffer.signedCells := by
  induction ps with
  | nil => intro dev; exact ⟨rfl, rfl, rfl, rfl⟩
  | cons p rest ih =>
    intro dev
    obtain ⟨h1, h2, h3, h4⟩ := ih (DrawPoint dev p c)
    obtain ⟨g1, g2, -, -, -, -, g7, g8, -⟩ := DrawPoint_header dev p c
    rw [drawPoints_cons]
    exact ⟨h1.trans g1, h2.trans g2, h3.trans g7, h4.trans g8⟩

theorem drawPoints_wellFormed (ps : List Vector3) (c : Color4) :
    ∀ dev : Device, WellFormed dev → WellFormed (drawPoints dev ps c) := by
  induction ps with
  | nil => intro dev h; exact h
  | cons p rest ih =>
    intro dev h
    exact ih _ (DrawPoint_wellFormed h _ _)

@[simp] theorem inBounds_drawPoints (dev : Device) (ps : List Vector3) (c : Color4) (q : Vector3) :
    inBounds (drawPoints dev ps c) q ↔ inBounds dev q :=
  inBounds_congr (drawPoints_header ps c dev).1 (drawPoints_header ps c dev).2.1 q

@[simp] theorem depthIndex_drawPoints (dev : Device) (ps : List Vector3) (c : Color4) (q : Vector3) :
    depthIndex (drawPoints dev ps c) q = depthIndex dev q := by
  unfold depthIndex
  rw [(drawPoints_header ps c dev).1]

@[simp] theorem byteIndex_drawPoints (dev : Device) (ps : List Vector3) (c : Color4) (q : Vector3) :
    byteIndex (drawPoints dev ps c) q = byteIndex dev q := by
  unfold byteIndex
  rw [(drawPoints_header ps c dev).2.2.1]

@[simp] theorem store_drawPoints (dev : Device) (ps : List Vector3) (c : Color4) (n : Int) :
    (drawPoints dev ps c).backBuffer.store n = dev.backBuffer.store n := by
  unfold BackBuffer.store
  rw [(drawPoints_header ps c dev).2.2.2]

/-- One opaque point commutes with a run of points that are farther wherever
they share its pixel. -/
theorem DrawPoint_drawPoints_comm (qs : List Vector3) (p : Vector3) (c1 c2 : Color4)
    (ha : c1.Alpha = 1) :
    ∀ dev : Device, WellFormed dev →
      (∀ q ∈ qs, inBounds dev p → inBounds dev q → pixelOf p = pixelOf q → p.Z < q.Z) →
      drawPoints (DrawPoint dev p c1) qs c2 = DrawPoint (drawPoints dev qs c2) p c1 := by
  induction qs with
  | nil => intro dev _ _; rfl
  | cons q rest ih =>
    intro dev hwf h
    rw [drawPoints_cons, drawPoints_cons,
      DrawPoint_comm hwf p q c1 c2 ha (h q (List.mem_cons_self _ _))]
    apply ih _ (DrawPoint_wellFormed hwf q c2)
    intro q2 hq2
    simp only [inBounds_DrawPoint]
    exact h q2 (List.mem_cons_of_mem _ hq2)

/-- Two runs of points commute when the first run is opaque and nearer
wherever a point of each run falls in the same pixel. -/
theorem drawPoints_comm (ps qs : List Vector3) (c1 c2 : Color4) (ha : c1.Alpha = 1) :
    ∀ dev : Device, WellFormed dev →
      (∀ p ∈ ps, ∀ q ∈ qs, inBounds dev p → inBounds dev q → pixelOf p = pixelOf q → p.Z < q.Z) →
      drawPoints (drawPoints dev ps c1) qs c2 = drawPoints (drawPoints dev qs c2) ps c1 := by
  induction ps with
  | nil => intro dev _ _; rfl
  | cons p rest ih =>
    intro dev hwf h
    rw [drawPoints_cons, drawPoints_cons]
    rw [ih (DrawPoint dev p c1) (DrawPoint_wellFormed hwf p c1)]
    · rw [DrawPoint_drawPoints_comm qs p c1 c2 ha dev hwf]
      intro q hq
      exact h p (List.mem_cons_self _ _) q hq
    · intro p2 hp2 q hq
      simp only [inBounds_DrawPoint]
      exact h p2 (List.mem_cons_of_mem _ hp2) q hq

/-- A run of points leaves alone the cells of a pixel none of them falls in. -/
theorem drawPoints_other_pixels (qs : List Vector3) (c : Color4) (p : Vector3) :
    ∀ dev : Device, WellFormed dev → inBounds dev p →
      (∀ q ∈ qs, pixelOf q ≠ pixelOf p) →
      (drawPoints dev qs c).depthAt (depthIndex dev p) = dev.depthAt (depthIndex dev p) ∧
      ∀ k : Int, 0 ≤ k → k ≤ 3 →
        (drawPoints dev qs c).backBuffer.read (byteIndex dev p + k) =
          dev.backBuffer.read (byteIndex dev p + k) := by
  induction qs with
  | nil => intro dev _ _ _; exact ⟨rfl, fun _ _ _ => rfl⟩
  | cons q rest ih =>
    intro dev hwf hp h
    have hq : pixelOf q ≠ pixelOf p := h q (List.mem_cons_self _ _)
    have hne : inBounds dev q → depthIndex dev q ≠ depthIndex dev p := fun hin e =>
      hq (pixelOf_eq_of_depthIndex_eq hwf hin hp e)
    obtain ⟨i1, i2⟩ := ih (DrawPoint dev q c) (DrawPoint_wellFormed hwf q c)
      ((inBounds_DrawPoint dev q c p).mpr hp) (fun q2 hq2 => h q2 (List.mem_cons_of_mem _ hq2))
    simp only [depthIndex_DrawPoint, byteIndex_DrawPoint] at i1 i2
    rw [drawPoints_cons]
    constructor
    · rw [i1, depthAt_DrawPoint hwf, if_neg]
      rintro ⟨⟨hin, -⟩, e⟩
      exact hne hin e
    · intro k hk0 hk3
      rw [i2 k hk0 hk3, read_DrawPoint hwf, if_neg]
      rintro ⟨⟨hin, -⟩, e1, e2⟩
      obtain ⟨-, -, -, -, -, -, bq⟩ := index_bounds hwf hin
      obtain ⟨-, -, -, -, -, -, bp⟩ := index_bounds hwf hp
      apply hne hin
      omega

/-- A run of points none of which is nearer than `z` in cell `i` keeps that
cell at `z` or farther. -/
theorem drawPoints_depthAt_ge (qs : List Vector3) (c : Color4) (i : Int) (z : ℚ) :
    ∀ dev : Device, WellFormed dev →
      (∀ q ∈ qs, inBounds dev q → depthIndex dev q = i → z ≤ q.Z) →
      z ≤ dev.depthAt i → z ≤ (drawPoints dev qs c).depthAt i := by
  induction qs with
  | nil => intro dev _ _ h; exact h
  | cons q rest ih =>
    intro dev hwf h hz
    rw [drawPoints_cons]
    apply ih _ (DrawPoint_wellFormed hwf q c)
    · intro q2 hq2
      simp only [inBounds_DrawPoint, depthIndex_DrawPoint]
      exact h q2 (List.mem_cons_of_mem _ hq2)
    · rw [depthAt_DrawPoint hwf]
      split
      · rename_i hc
        exact h q (List.mem_cons_self _ _) hc.1.1 hc.2
      · exact hz

/-- In a run of opaque points that fall in pairwise different pixels, an
in-bounds point that passes the depth test leaves its depth and its colour in
its pixel. -/
theorem drawPoints_unique_pixel (ps : List Vector3) (c : Color4) (ha : c.Alpha = 1) (p : Vector3) :
    ∀ dev : Device, WellFormed dev → (ps.map pixelOf).Nodup → p ∈ ps → inBounds dev p →
      p.Z ≤ dev.depthAt (depthIndex dev p) →
      (drawPoints dev ps c).depthAt (depthIndex dev p) = p.Z ∧
      ∀ k : Int, 0 ≤ k → k ≤ 3 →
        (drawPoints dev ps c).backBuffer.read (byteIndex dev p + k) =
          dev.backBuffer.store (toInt (channel c k * 255)) := by
  induction ps with
  | nil => intro dev _ _ hm; exact absurd hm (List.not_mem_nil _)
  | cons q rest ih =>
    intro dev hwf hnd hm hp hz
    rw [List.map_cons, List.nodup_cons] at hnd
    obtain ⟨hq, hnd2⟩ := hnd
    rw [drawPoints_cons]
    rcases List.mem_cons.mp hm with e | hm2
    · subst e
      have hrest : ∀ q2 ∈ rest, pixelOf q2 ≠ pixelOf p := by
        intro q2 hq2 e
        exact hq (e ▸ List.mem_map_of_mem pixelOf hq2)
      obtain ⟨i1, i2⟩ := drawPoints_other_pixels rest c p (DrawPoint dev p c)
        (DrawPoint_wellFormed hwf p c) ((inBounds_DrawPoint dev p c p).mpr hp) hrest
      simp only [depthIndex_DrawPoint, byteIndex_DrawPoint] at i1 i2
      constructor
      · rw [i1, depthAt_DrawPoint hwf, if_pos ⟨⟨hp, hz⟩, rfl⟩]
      · intro k hk0 hk3
        rw [i2 k hk0 hk3, read_DrawPoint hwf, if_pos ⟨⟨hp, hz⟩, by omega, by omega⟩, ha,
          blend_opaque, store_toChar]
        congr 3
        ring_nf
    · have hne : pixelOf q ≠ pixelOf p := fun e =>
        hq (e ▸ List.mem_map_of_mem pixelOf hm2)
      obtain ⟨j1, -⟩ := drawPoints_other_pixels [q] c p dev hwf hp
        (fun q2 hq2 => by rw [List.mem_singleton.mp hq2]; exact hne)
      have j1b : (DrawPoint dev q c).depthAt (depthIndex dev p) = dev.depthAt (depthIndex dev p) := j1
      obtain ⟨r1, r2⟩ := ih (DrawPoint dev q c) (DrawPoint_wellFormed hwf q c) hnd2 hm2
        ((inBounds_DrawPoint dev q c p).mpr hp)
        (by rw [depthIndex_DrawPoint, j1b]; exact hz)
      simp only [depthIndex_DrawPoint, byteIndex_DrawPoint, store_DrawPoint] at r1 r2
      exact ⟨r1, r2⟩

theorem pixelOf_mk (x y : Int) (z : ℚ) : pixelOf { X := (x : ℚ), Y := (y : ℚ), Z := z } = (x, y) := by
  simp [pixelOf, toInt_intCast]

/-- The pixels of one scanline: consecutive columns of row `y`. -/
theorem scanLinePoints_pixels (y : Int) (pa pb pc pd : Vector3) :
    ∃ (sx : Int) (n : Nat), (scanLinePoints y pa pb pc pd).map pixelOf =
      (List.range n).map fun (k : Nat) => (sx + (k : Int), y) := by
  refine ⟨toInt (Interpolate pa.X pb.X (scanGradient y pa pb)),
    (toInt (Interpolate pc.X pd.X (scanGradient y pc pd)) -
      toInt (Interpolate pa.X pb.X (scanGradient y pa pb))).toNat, ?_⟩
  unfold scanLinePoints
  simp only [List.map_map]
  apply List.map_congr_left
  intro k _
  exact pixelOf_mk _ _ _

theorem scanLinePoints_nodup (y : Int) (pa pb pc pd : Vector3) :
    ((scanLinePoints y pa pb pc pd).map pixelOf).Nodup := by
  obtain ⟨sx, n, h⟩ := scanLinePoints_pixels y pa pb pc pd
  rw [h]
  apply List.Nodup.map _ (List.nodup_range n)
  intro a b hab
  simp only [Prod.mk.injEq, and_true] at hab
  omega

theorem scanLinePoints_row (y : Int) (pa pb pc pd : Vector3) :
    ∀ q ∈ (scanLinePoints y pa pb pc pd).map pixelOf, q.2 = y := by
  obtain ⟨sx, n, h⟩ := scanLinePoints_pixels y pa pb pc pd
  rw [h]
  intro q hq
  obtain ⟨k, -, e⟩ := List.mem_map.mp hq
  rw [← e]

theorem scanRows_nodup (p1 p3 : Vector3) : (scanRows p1 p3).Nodup := by
  unfold scanRows
  apply List.Nodup.map _ (List.nodup_range _)
  intro a b hab
  simp only at hab
  omega

/-- Rows of pairwise different pixels, each in its own row, have pairwise
different pixels altogether. -/
theorem rows_nodup (rows : List Int) (f : Int → List Vector3) (hr : rows.Nodup)
    (h1 : ∀ y, ((f y).map pixelOf).Nodup) (h2 : ∀ y, ∀ q ∈ (f y).map pixelOf, q.2 = y) :
    ((rows.flatMap f).map pixelOf).Nodup := by
  rw [List.map_flatMap, List.nodup_flatMap]
  refine ⟨fun y _ => h1 y, ?_⟩
  apply hr.pairwise_of_forall_ne
  intro a _ b _ hab
  intro q hqa hqb
  exact hab ((h2 a q hqa).symm.trans (h2 b q hqb))

/-- `RasterizeTriangle` hands each pixel to `DrawPoint` at most once. -/
theorem trianglePoints_nodup (p1 p2 p3 : Vector3) :
    ((trianglePoints p1 p2 p3).map pixelOf).Nodup := by
  unfold trianglePoints
  dsimp only
  split_ifs <;> first
    | exact List.nodup_nil
    | (apply rows_nodup _ _ (scanRows_nodup _ _)
       · intro y; split <;> exact scanLinePoints_nodup _ _ _ _ _
       · intro y; split <;> exact scanLinePoints_row _ _ _ _ _)

/-- C7 (as amended): draw-order independence for an opaque nearer triangle.
When the first triangle is opaque and, at every in-bounds pixel both triangles
cover, its interpolated depth is strictly smaller, rasterizing the two in
either order from the same well-formed starting buffers yields the same device
state; and every in-bounds pixel of the first triangle whose starting depth is
not nearer than the triangle there (as after `Clear`) ends up with the
triangle's depth and its 8-bit colour. -/
theorem RasterizeTriangle_order (dev : Device) (a1 b1 c1 a2 b2 c2 : Vector3)
    (color1 color2 : Color4) (hwf : WellFormed dev) (ho : color1.Alpha = 1)
    (hnear : ∀ p ∈ trianglePoints a1 b1 c1, ∀ q ∈ trianglePoints a2 b2 c2,
      inBounds dev p → pixelOf p = pixelOf q → p.Z < q.Z) :
    RasterizeTriangle (RasterizeTriangle dev a1 b1 c1 color1) a2 b2 c2 color2 =
      RasterizeTriangle (RasterizeTriangle dev a2 b2 c2 color2) a1 b1 c1 color1 ∧
    ∀ p ∈ trianglePoints a1 b1 c1, inBounds dev p → p.Z ≤ dev.depthAt (depthIndex dev p) →
      (RasterizeTriangle (RasterizeTriangle dev a1 b1 c1 color1) a2 b2 c2 color2).depthAt
        (depthIndex dev p) = p.Z ∧
      ∀ k : Int, 0 ≤ k → k ≤ 3 →
        (RasterizeTriangle (RasterizeTriangle dev a1 b1 c1 color1) a2 b2 c2 color2).backBuffer.read
          (byteIndex dev p + k) = dev.backBuffer.store (toInt (channel color1 k * 255)) := by
  have hcomm : RasterizeTriangle (RasterizeTriangle dev a1 b1 c1 color1) a2 b2 c2 color2 =
      RasterizeTriangle (RasterizeTriangle dev a2 b2 c2 color2) a1 b1 c1 color1 := by
    simp only [RasterizeTriangle_eq]
    apply drawPoints_comm _ _ _ _ ho dev hwf
    intro p hp q hq hin _ hpix
    exact hnear p hp q hq hin hpix
  refine ⟨hcomm, ?_⟩
  intro p hp hin hz
  rw [hcomm]
  simp only [RasterizeTriangle_eq]
  have hge : p.Z ≤ (drawPoints dev (trianglePoints a2 b2 c2) color2).depthAt (depthIndex dev p) := by
    apply drawPoints_depthAt_ge _ _ _ _ dev hwf _ hz
    intro q hq hqin hidx
    exact le_of_lt (hnear p hp q hq hin
      (pixelOf_eq_of_depthIndex_eq hwf hin hqin hidx.symm))
  have := drawPoints_unique_pixel (trianglePoints a1 b1 c1) color1 ho p
    (drawPoints dev (trianglePoints a2 b2 c2) color2) (drawPoints_wellFormed _ _ dev hwf)
    (trianglePoints_nodup a1 b1 c1) hp ((inBounds_drawPoints dev _ _ p).mpr hin)
    (by rw [depthIndex_drawPoints]; exact hge)
  simpa only [depthIndex_drawPoints, byteIndex_drawPoints, store_drawPoints] using this

theorem RasterizeTriangle_order_witness :
    WellFormed (Clear (create true 3 3) ⟨0, 0, 0, 1⟩) ∧
    RasterizeTriangle (RasterizeTriangle (Clear (create true 3 3) ⟨0, 0, 0, 1⟩)
        ⟨0, 0, 1⟩ ⟨3, 0, 1⟩ ⟨0, 3, 1⟩ ⟨1, 1, 1, 1⟩) ⟨0, 0, 2⟩ ⟨3, 3, 2⟩ ⟨3, 0, 2⟩ ⟨0, 0, 1, 1⟩ =
      RasterizeTriangle (RasterizeTriangle (Clear (create true 3 3) ⟨0, 0, 0, 1⟩)
        ⟨0, 0, 2⟩ ⟨3, 3, 2⟩ ⟨3, 0, 2⟩ ⟨0, 0, 1, 1⟩) ⟨0, 0, 1⟩ ⟨3, 0, 1⟩ ⟨0, 3, 1⟩ ⟨1, 1, 1, 1⟩ :=
  ⟨by decide!,
    (RasterizeTriangle_order (Clear (create true 3 3) ⟨0, 0, 0, 1⟩)
      ⟨0, 0, 1⟩ ⟨3, 0, 1⟩ ⟨0, 3, 1⟩ ⟨0, 0, 2⟩ ⟨3, 3, 2⟩ ⟨3, 0, 2⟩ ⟨1, 1, 1, 1⟩ ⟨0, 0, 1, 1⟩
      (by decide!) rfl (by decide!)).1⟩

/-- C7 fails as stated: on `shieldedDevice` pixel `(1, 1)` starts at depth `-10`.
The opaque white triangle at depth `1` and the opaque blue triangle at depth `2`
both cover that pixel and the white one is nearer on the whole overlap, yet
after rasterizing both (in either order) the pixel still holds the red bytes
and depth `-10`, not the nearer triangle's colour and depth. -/
theorem RasterizeTriangle_overlap_shielded :
    (∀ p ∈ trianglePoints ⟨0, 0, 1⟩ ⟨3, 0, 1⟩ ⟨0, 3, 1⟩,
      ∀ q ∈ trianglePoints ⟨0, 0, 2⟩ ⟨3, 3, 2⟩ ⟨3, 0, 2⟩, pixelOf p = pixelOf q → p.Z < q.Z) ∧
    (⟨1, 1, 1⟩ : Vector3) ∈ trianglePoints ⟨0, 0, 1⟩ ⟨3, 0, 1⟩ ⟨0, 3, 1⟩ ∧
    (⟨1, 1, 2⟩ : Vector3) ∈ trianglePoints ⟨0, 0, 2⟩ ⟨3, 3, 2⟩ ⟨3, 0, 2⟩ ∧
    (RasterizeTriangle (RasterizeTriangle shieldedDevice
        ⟨0, 0, 2⟩ ⟨3, 3, 2⟩ ⟨3, 0, 2⟩ ⟨0, 0, 1, 1⟩)
        ⟨0, 0, 1⟩ ⟨3, 0, 1⟩ ⟨0, 3, 1⟩ ⟨1, 1, 1, 1⟩).depthAt 4 = -10 ∧
    ((RasterizeTriangle (RasterizeTriangle shieldedDevice
        ⟨0, 0, 2⟩ ⟨3, 3, 2⟩ ⟨3, 0, 2⟩ ⟨0, 0, 1, 1⟩)
        ⟨0, 0, 1⟩ ⟨3, 0, 1⟩ ⟨0, 3, 1⟩ ⟨1, 1, 1, 1⟩).backBuffer.cells.drop 16).take 4 =
      [0, 0, -1, -1] ∧
    shieldedDevice.backBuffer.store (toInt ((⟨1, 1, 1, 1⟩ : Color4).Blue * 255)) = -1 := by
  decide!

end Device

end Engine

/-! ## The loop of `DrawLine` -/

namespace Engine

namespace Device

end Device

end Engine

/-! ## Termination of `DrawLine` and the pixels it submits -/

namespace Engine

namespace Device

end Device

end Engine

namespace Engine

namespace Device

/-- The extra pixel `(0, 1)` of the line from `(0,0,0)` to `(4,2,0)` does not
depend on how `sqrt` rounds: it is submitted for every `sqrt` with
`4 < sqrt 20`. -/
theorem DrawLine_extra_pixel (sqrt : ℚ → ℚ) (h : 4 < sqrt 20) (fuel : Nat) (ps : List Vector3)
    (hps : linePoints sqrt fuel ⟨0, 0, 0⟩ ⟨4, 2, 0⟩ 1 = some ps) :
    ((0 : Int), (1 : Int)) ∈ ps.map pixelOf := by
  have t0 : toInt 0 = 0 := by simp [toInt]
  have t4 : toInt 4 = 4 := by
    have := toInt_intCast 4
    simpa using this
  have t2 : toInt 2 = 2 := by
    have := toInt_intCast 2
    simpa using this
  have hs : lineSetup sqrt ⟨0, 0, 0⟩ ⟨4, 2, 0⟩ 1 =
      { x0 := 0, y0 := 0, x1 := 4, y1 := 2, wd := 1, dx := 4, dy := 2, sx := 1, sy := 1,
        ed := sqrt 20, zA := 0, zB := 0 } := by
    unfold lineSetup
    simp only [t0, t4, t2]
    norm_num [delta]
  cases fuel with
  | zero => simp [linePoints, lineLoop] at hps
  | succ f =>
    unfold linePoints at hps
    rw [hs] at hps
    simp only at hps
    unfold lineLoop linePass thickenY at hps
    simp only at hps
    norm_num at hps
    rw [if_pos h] at hps
    cases hty : thickenY (sqrt 20) 1 4 2 1 2 0
        (Interpolate 0 0 (delta sqrt 0 0 / delta sqrt 4 2)) f 8 1 with
    | none =>
      rw [hty] at hps
      simp at hps
    | some ps1 =>
      rw [hty] at hps
      simp only [Option.map_some'] at hps
      cases hlp : lineLoop sqrt
          { x0 := 0, y0 := 0, x1 := 4, y1 := 2, wd := 1, dx := 4, dy := 2, sx := 1, sy := 1,
            ed := sqrt 20, zA := 0, zB := 0 } (f + 1) f 1 0 0 with
      | none =>
        rw [hlp] at hps
        simp at hps
      | some rest =>
        rw [hlp] at hps
        simp only [Option.map_some', Option.some.injEq] at hps
        rw [← hps]
        have e : pixelOf (⟨0, 1, Interpolate 0 0 (delta sqrt 0 0 / delta sqrt 4 2)⟩ : Vector3) =
            ((0 : Int), (1 : Int)) := by
          have := pixelOf_mk 0 1 (Interpolate 0 0 (delta sqrt 0 0 / delta sqrt 4 2))
          simpa using this
        simp [e]

end Device

end Engine

/-! ## The vertex sort of `RasterizeTriangle` -/

namespace Engine

namespace Device

/-- C17: the three compare-swaps at the start of `RasterizeTriangle` sort the
vertices.  For every input triple the result is a permutation of the input with
`p1.Y <= p2.Y <= p3.Y`, and it is stable: two vertices with equal `Y` keep
their input order, so the result is the stable insertion sort of the input. -/
theorem sortPoints_sorts (p1 p2 p3 : Vector3) :
    [(sortPoints p1 p2 p3).1, (sortPoints p1 p2 p3).2.1, (sortPoints p1 p2 p3).2.2].Perm
      [p1, p2, p3] ∧
    (sortPoints p1 p2 p3).1.Y ≤ (sortPoints p1 p2 p3).2.1.Y ∧
    (sortPoints p1 p2 p3).2.1.Y ≤ (sortPoints p1 p2 p3).2.2.Y ∧
    (p1.Y = p2.Y → [p1, p2].Sublist
      [(sortPoints p1 p2 p3).1, (sortPoints p1 p2 p3).2.1, (sortPoints p1 p2 p3).2.2]) ∧
    (p1.Y = p3.Y → [p1, p3].Sublist
      [(sortPoints p1 p2 p3).1, (sortPoints p1 p2 p3).2.1, (sortPoints p1 p2 p3).2.2]) ∧
    (p2.Y = p3.Y → [p2, p3].Sublist
      [(sortPoints p1 p2 p3).1, (sortPoints p1 p2 p3).2.1, (sortPoints p1 p2 p3).2.2]) ∧
    [(sortPoints p1 p2 p3).1, (sortPoints p1 p2 p3).2.1, (sortPoints p1 p2 p3).2.2] =
      [p1, p2, p3].insertionSort (fun a b => a.Y ≤ b.Y) := by
  have perm1 : [p2, p1, p3].Perm [p1, p2, p3] := List.Perm.swap _ _ _
  have perm2 : [p1, p3, p2].Perm [p1, p2, p3] := List.Perm.cons _ (List.Perm.swap _ _ _)
  have perm3 : [p3, p1, p2].Perm [p1, p2, p3] := (List.Perm.swap _ _ _).trans perm2
  have perm4 : [p2, p3, p1].Perm [p1, p2, p3] :=
    (List.Perm.cons _ (List.Perm.swap _ _ _)).trans perm1
  have perm5 : [p3, p2, p1].Perm [p1, p2, p3] := (List.Perm.swap _ _ _).trans perm4
  by_cases h12 : p1.Y > p2.Y <;> by_cases h23 : p2.Y > p3.Y <;> by_cases h13 : p1.Y > p3.Y <;>
    simp only [sortPoints, h12, h23, h13, if_true, if_false, List.insertionSort,
      List.orderedInsert, List.foldr] <;>
    split_ifs <;>
    refine ⟨?_, ?_, ?_, ?_, ?_, ?_, ?_⟩ <;>
    first
      | assumption
      | exact List.Perm.refl _
      | rfl
      | linarith
      | (intro he; exfalso; linarith)
      | (intro _; simp)
      | (simp only [List.orderedInsert]
         split_ifs <;> first | rfl | (exfalso; linarith))

theorem sortPoints_sorts_witness :
    (⟨0, 1, 0⟩ : Vector3).Y = (⟨2, 1, 0⟩ : Vector3).Y ∧
    sortPoints ⟨0, 1, 0⟩ ⟨1, 0, 0⟩ ⟨2, 1, 0⟩ = (⟨1, 0, 0⟩, ⟨0, 1, 0⟩, ⟨2, 1, 0⟩) ∧
    [(⟨0, 1, 0⟩ : Vector3), ⟨2, 1, 0⟩].Sublist
      [(sortPoints ⟨0, 1, 0⟩ ⟨1, 0, 0⟩ ⟨2, 1, 0⟩).1, (sortPoints ⟨0, 1, 0⟩ ⟨1, 0, 0⟩ ⟨2, 1, 0⟩).2.1,
        (sortPoints ⟨0, 1, 0⟩ ⟨1, 0, 0⟩ ⟨2, 1, 0⟩).2.2] :=
  ⟨by decide!, by decide!,
    (sortPoints_sorts ⟨0, 1, 0⟩ ⟨1, 0, 0⟩ ⟨2, 1, 0⟩).2.2.2.2.1 (by decide!)⟩

/-! ## The points of a scanline -/

theorem scanLinePoints_eq (y : Int) (pa pb pc pd : Vector3) :
    scanLinePoints y pa pb pc pd =
      (List.range (scanX y pc pd - scanX y pa pb).toNat).map fun (k : Nat) =>
        { X := ((scanX y pa pb + (k : Int) : Int) : ℚ), Y := (y : ℚ),
          Z := scanZ y pa pb + (scanZ y pc pd - scanZ y pa pb) *
            (((scanX y pa pb + (k : Int) : Int) : ℚ) - (scanX y pa pb : ℚ)) /
              ((scanX y pc pd : ℚ) - (scanX y pa pb : ℚ)) } := by
  unfold scanLinePoints scanX scanZ
  apply List.map_congr_left
  intro k _
  simp only [Interpolate, Vector3.mk.injEq, true_and]
  push_cast
  ring

/-- C18: `ProcessScanLine` hands to `DrawPoint` exactly one point `(x, y, z)`
for each integer `x` with `start <= x < end`, in ascending order of `x`, where
`start` and `end` are the truncated interpolated edge `X` values and
`z = z1 + (z2 - z1) * (x - start) / (end - start)`; the leftmost point carries
the left edge depth `z1`, and nothing is submitted when `end <= start`. -/
theorem ProcessScanLine_points (dev : Device) (y : Int) (pa pb pc pd : Vector3) (color : Color4) :
    ProcessScanLine dev y pa pb pc pd color =
      drawPoints dev (scanLinePoints y pa pb pc pd) color ∧
    (∀ p : Vector3, p ∈ scanLinePoints y pa pb pc pd ↔
      ∃ x : Int, scanX y pa pb ≤ x ∧ x < scanX y pc pd ∧
        p = { X := (x : ℚ), Y := (y : ℚ),
              Z := scanZ y pa pb + (scanZ y pc pd - scanZ y pa pb) *
                ((x : ℚ) - (scanX y pa pb : ℚ)) / ((scanX y pc pd : ℚ) - (scanX y pa pb : ℚ)) }) ∧
    (scanLinePoints y pa pb pc pd).length = (scanX y pc pd - scanX y pa pb).toNat ∧
    (scanLinePoints y pa pb pc pd).Pairwise (fun p q => p.X < q.X) ∧
    (scanX y pc pd ≤ scanX y pa pb → scanLinePoints y pa pb pc pd = []) ∧
    (scanX y pa pb < scanX y pc pd →
      (scanLinePoints y pa pb pc pd).head? =
        some { X := (scanX y pa pb : ℚ), Y := (y : ℚ), Z := scanZ y pa pb }) := by
  refine ⟨rfl, ?_, ?_, ?_, ?_, ?_⟩
  · intro p
    rw [scanLinePoints_eq, List.mem_map]
    constructor
    · rintro ⟨k, hk, rfl⟩
      rw [List.mem_range] at hk
      exact ⟨scanX y pa pb + (k : Int), by omega, by omega, rfl⟩
    · rintro ⟨x, h1, h2, rfl⟩
      refine ⟨(x - scanX y pa pb).toNat, ?_, ?_⟩
      · rw [List.mem_range]; omega
      · have e : scanX y pa pb + ((x - scanX y pa pb).toNat : Int) = x := by omega
        rw [e]
  · rw [scanLinePoints_eq, List.length_map, List.length_range]
  · rw [scanLinePoints_eq, List.pairwise_map]
    have hr : (List.range (scanX y pc pd - scanX y pa pb).toNat).Pairwise (· < ·) :=
      List.pairwise_lt_range _
    refine hr.imp ?_
    intro a b hab
    simp only
    exact_mod_cast (show scanX y pa pb + (a : Int) < scanX y pa pb + (b : Int) by omega)
  · intro h
    rw [scanLinePoints_eq]
    have : (scanX y pc pd - scanX y pa pb).toNat = 0 := by omega
    rw [this]
    rfl
  · intro h
    rw [scanLinePoints_eq]
    obtain ⟨n, hn⟩ : ∃ n, (scanX y pc pd - scanX y pa pb).toNat = n + 1 :=
      ⟨(scanX y pc pd - scanX y pa pb).toNat - 1, by omega⟩
    rw [hn, List.range_succ_eq_map]
    simp

theorem ProcessScanLine_points_witness :
    scanX 1 topA topC < scanX 1 topB topC ∧
    (scanLinePoints 1 topA topC topB topC).head? =
      some { X := (scanX 1 topA topC : ℚ), Y := ((1 : Int) : ℚ), Z := scanZ 1 topA topC } ∧
    scanLinePoints 1 topA topC topB topC =
      [⟨1, 1, 4 / 3⟩, ⟨2, 1, 37 / 24⟩, ⟨3, 1, 7 / 4⟩, ⟨4, 1, 47 / 24⟩] :=
  ⟨by decide!,
    (ProcessScanLine_points smallDevice 1 topA topC topB topC ⟨1, 1, 1, 1⟩).2.2.2.2.2 (by decide!),
    by decide!⟩

end Device

end Engine

/-! ## Buffer indices and the blend of `PutPixel` -/

namespace Engine

namespace Device

/-- A device built by the constructor with non-negative sizes is well formed. -/
theorem create_wellFormed (signedCells : Bool) {w h : Int} (hw : 0 ≤ w) (hh : 0 ≤ h) :
    WellFormed (create signedCells w h) := by
  unfold WellFormed create BackBuffer.create
  simp [hw, hh]

/-- C19: buffer indexing is always in range.  On a device built with
`width, height >= 0` (and on every state `Clear` and `DrawPoint` lead to),
every point that passes the clip test of `DrawPoint` has a depth index
`(int)X + (int)Y * width` inside the depth buffer and `PutPixel` byte offsets
`index .. index + 3` inside the framebuffer, and two such points in different
pixels share neither a depth index nor a byte offset. -/
theorem index_in_range (signedCells : Bool) (w h : Int) (hw : 0 ≤ w) (hh : 0 ≤ h) :
    WellFormed (create signedCells w h) ∧
    (∀ (dev : Device) (c : Color4), WellFormed dev → WellFormed (Clear dev c)) ∧
    (∀ (dev : Device) (p : Vector3) (c : Color4), WellFormed dev → WellFormed (DrawPoint dev p c)) ∧
    ∀ dev : Device, WellFormed dev → ∀ p : Vector3, inBounds dev p →
      depthIndex dev p = toInt p.X + toInt p.Y * dev.deviceWidth ∧
      byteIndex dev p = toInt p.X * 4 + toInt p.Y * dev.backBuffer.scanLineSize ∧
      0 ≤ depthIndex dev p ∧ depthIndex dev p < dev.deviceWidth * dev.deviceHeight ∧
      (depthIndex dev p).toNat < dev.depthBuffer.length ∧
      0 ≤ byteIndex dev p ∧ (byteIndex dev p + 3).toNat < dev.backBuffer.cells.length ∧
      ∀ q : Vector3, inBounds dev q → pixelOf p ≠ pixelOf q →
        depthIndex dev p ≠ depthIndex dev q ∧
        (byteIndex dev p + 3 < byteIndex dev q ∨ byteIndex dev q + 3 < byteIndex dev p) := by
  refine ⟨create_wellFormed signedCells hw hh, fun dev c hwf => Clear_wellFormed hwf c,
    fun dev p c hwf => DrawPoint_wellFormed hwf p c, ?_⟩
  intro dev hwf p hp
  obtain ⟨-, -, -, -, h0, h1, hb⟩ := index_bounds hwf hp
  have hdl := hwf.2.2.2.1
  have hcl := hwf.2.2.2.2.2.2.2
  refine ⟨rfl, rfl, h0, h1, by rw [hdl]; omega, by omega, by rw [hcl]; omega, ?_⟩
  intro q hq hne
  obtain ⟨-, -, -, -, -, -, hbq⟩ := index_bounds hwf hq
  have hd : depthIndex dev p ≠ depthIndex dev q := fun e =>
    hne (pixelOf_eq_of_depthIndex_eq hwf hp hq e)
  exact ⟨hd, by omega⟩

theorem index_in_range_witness :
    (0 : Int) ≤ 3 ∧ (0 : Int) ≤ 2 ∧ inBounds (create true 3 2) ⟨5 / 2, 3 / 2, 0⟩ ∧
    depthIndex (create true 3 2) ⟨5 / 2, 3 / 2, 0⟩ = 5 ∧
    (depthIndex (create true 3 2) ⟨5 / 2, 3 / 2, 0⟩).toNat < (create true 3 2).depthBuffer.length :=
  ⟨by decide, by decide, by decide!, by decide!,
    ((index_in_range true 3 2 (by decide) (by decide)).2.2.2 (create true 3 2)
      (index_in_range true 3 2 (by decide) (by decide)).1 ⟨5 / 2, 3 / 2, 0⟩
      (by decide!)).2.2.2.2.1⟩

/-- Storing a number in a byte keeps its low eight bits and nothing else: the
stored value is congruent to the number modulo 256 and lies in the range of
the byte type. -/
theorem store_wraps (bb : BackBuffer) (n : Int) :
    bb.store n % 256 = n % 256 ∧
    (bb.signedCells = true → -128 ≤ bb.store n ∧ bb.store n ≤ 127) ∧
    (bb.signedCells = false → 0 ≤ bb.store n ∧ bb.store n ≤ 255) := by
  unfold BackBuffer.store
  split <;> simp_all <;> omega

/-- C12: `PutPixel` writes, for each of the four channels at byte offset
`x * 4 + y * stride` (+0 Blue, +1 Green, +2 Red, +3 Alpha), the value
`trunc(src * 255) + trunc((1 - alpha) * dst)` reduced to 8 bits without
clamping, and leaves every other cell and the depth buffer alone; for
`alpha = 1` the pixel becomes exactly the 8-bit B, G, R, A values of the
colour, whatever it held before. -/
theorem PutPixel_blend (dev : Device) (x y : Int) (color : Color4)
    (h0 : 0 ≤ x * 4 + y * dev.backBuffer.scanLineSize)
    (h1 : (x * 4 + y * dev.backBuffer.scanLineSize + 3).toNat < dev.backBuffer.cells.length) :
    (∀ k : Int, 0 ≤ k → k ≤ 3 →
      (PutPixel dev x y color).backBuffer.read (x * 4 + y * dev.backBuffer.scanLineSize + k) =
        dev.backBuffer.store
          (toInt (channel color k * 255) +
            toInt ((1 - color.Alpha) *
              ((dev.backBuffer.read (x * 4 + y * dev.backBuffer.scanLineSize + k) : Int) : ℚ)))) ∧
    (∀ n : Int, dev.backBuffer.store n % 256 = n % 256) ∧
    (color.Alpha = 1 → ∀ k : Int, 0 ≤ k → k ≤ 3 →
      (PutPixel dev x y color).backBuffer.read (x * 4 + y * dev.backBuffer.scanLineSize + k) =
        dev.backBuffer.store (toInt (channel color k * 255))) ∧
    (∀ j : Int, (j < x * 4 + y * dev.backBuffer.scanLineSize ∨
        x * 4 + y * dev.backBuffer.scanLineSize + 3 < j) →
      (PutPixel dev x y color).backBuffer.read j = dev.backBuffer.read j) ∧
    (PutPixel dev x y color).backBuffer.cells.length = dev.backBuffer.cells.length ∧
    (PutPixel dev x y color).depthBuffer = dev.depthBuffer := by
  have hread : ∀ k : Int, 0 ≤ k → k ≤ 3 →
      (PutPixel dev x y color).backBuffer.read (x * 4 + y * dev.backBuffer.scanLineSize + k) =
        dev.backBuffer.store (blend (channel color k) color.Alpha
          (dev.backBuffer.read (x * 4 + y * dev.backBuffer.scanLineSize + k))) := by
    intro k hk0 hk3
    rw [read_PutPixel, if_pos ⟨⟨by omega, by omega⟩, by omega, by omega⟩]
    congr 3
    ring
  refine ⟨?_, fun n => (store_wraps _ n).1, ?_, ?_, PutPixel_length dev x y color, rfl⟩
  · intro k hk0 hk3
    rw [hread k hk0 hk3, store_blend]
  · intro ha k hk0 hk3
    rw [hread k hk0 hk3, ha, blend_opaque, store_toChar]
  · intro j hj
    rw [read_PutPixel, if_neg]
    rintro ⟨⟨a, b⟩, -⟩
    omega

theorem PutPixel_blend_witness :
    (0 : Int) ≤ 1 * 4 + 0 * smallDevice.backBuffer.scanLineSize ∧
    (PutPixel smallDevice 1 0 ⟨1, 1 / 2, 0, 1 / 2⟩).backBuffer.read
        (1 * 4 + 0 * smallDevice.backBuffer.scanLineSize + 3) =
      smallDevice.backBuffer.store
        (toInt (channel ⟨1, 1 / 2, 0, 1 / 2⟩ 3 * 255) +
          toInt ((1 - (⟨1, 1 / 2, 0, 1 / 2⟩ : Color4).Alpha) *
            ((smallDevice.backBuffer.read (1 * 4 + 0 * smallDevice.backBuffer.scanLineSize + 3) :
              Int) : ℚ))) ∧
    (PutPixel smallDevice 1 0 ⟨1, 1 / 2, 0, 1 / 2⟩).backBuffer.read 7 = 127 :=
  ⟨by decide!,
    (PutPixel_blend smallDevice 1 0 ⟨1, 1 / 2, 0, 1 / 2⟩ (by decide!) (by decide!)).1 3
      (by decide) (by decide),
    by decide!⟩

end Device

end Engine

/-! ## `Project` -/

namespace Engine

namespace Device

/-- C13: `Project` maps a vertex whose rotated and view-projection-transformed
coordinates are `(nx, ny, nz)` to exactly
`(nx * width + width / 2, -ny * height + height / 2, nz)`.  The NDC origin
lands on the buffer centre, a larger `ny` gives a smaller screen `Y` (strictly
so on a device of positive height), `Z` is passed through, and the result
depends on the device only through its size. -/
theorem Project_formula {Quaternion Matrix : Type} (Rotate : Quaternion → Vector3 → Vector3)
    (TransformCoordinate : Vector3 → Matrix → Vector3) (dev : Device) (coord : Vector3)
    (rotation : Quaternion) (transMat : Matrix) :
    Project Rotate TransformCoordinate dev coord rotation transMat =
      { X := (TransformCoordinate (Rotate rotation coord) transMat).X * (dev.deviceWidth : ℚ) +
          (dev.deviceWidth : ℚ) / 2,
        Y := -(TransformCoordinate (Rotate rotation coord) transMat).Y * (dev.deviceHeight : ℚ) +
          (dev.deviceHeight : ℚ) / 2,
        Z := (TransformCoordinate (Rotate rotation coord) transMat).Z } ∧
    ((TransformCoordinate (Rotate rotation coord) transMat).X = 0 →
      (TransformCoordinate (Rotate rotation coord) transMat).Y = 0 →
      (Project Rotate TransformCoordinate dev coord rotation transMat).X =
          (dev.deviceWidth : ℚ) / 2 ∧
        (Project Rotate TransformCoordinate dev coord rotation transMat).Y =
          (dev.deviceHeight : ℚ) / 2) ∧
    (∀ coord2 : Vector3, 0 ≤ dev.deviceHeight →
      (TransformCoordinate (Rotate rotation coord) transMat).Y ≤
        (TransformCoordinate (Rotate rotation coord2) transMat).Y →
      (Project Rotate TransformCoordinate dev coord2 rotation transMat).Y ≤
        (Project Rotate TransformCoordinate dev coord rotation transMat).Y) ∧
    (∀ coord2 : Vector3, 0 < dev.deviceHeight →
      (TransformCoordinate (Rotate rotation coord) transMat).Y <
        (TransformCoordinate (Rotate rotation coord2) transMat).Y →
      (Project Rotate TransformCoordinate dev coord2 rotation transMat).Y <
        (Project Rotate TransformCoordinate dev coord rotation transMat).Y) ∧
    (∀ dev2 : Device, dev2.deviceWidth = dev.deviceWidth → dev2.deviceHeight = dev.deviceHeight →
      Project Rotate TransformCoordinate dev2 coord rotation transMat =
        Project Rotate TransformCoordinate dev coord rotation transMat) := by
  refine ⟨rfl, ?_, ?_, ?_, ?_⟩
  · intro hx hy
    simp only [Project, hx, hy]
    constructor <;> ring
  · intro coord2 hh hlt
    have hq : (0 : ℚ) ≤ (dev.deviceHeight : ℚ) := by exact_mod_cast hh
    simp only [Project]
    nlinarith
  · intro coord2 hh hlt
    have hq : (0 : ℚ) < (dev.deviceHeight : ℚ) := by exact_mod_cast hh
    simp only [Project]
    nlinarith
  · intro dev2 hw hh
    simp only [Project, hw, hh]

theorem Project_formula_witness :
    (0 : Int) < (create true 200 200).deviceHeight ∧
    Project (fun (_ : Unit) v => v) (fun v (_ : Unit) => v) (create true 200 200)
      ⟨1 / 4, 1 / 4, 7⟩ () () = ⟨150, 50, 7⟩ ∧
    (Project (fun (_ : Unit) v => v) (fun v (_ : Unit) => v) (create true 200 200)
        ⟨1 / 4, 1 / 2, 7⟩ () ()).Y <
      (Project (fun (_ : Unit) v => v) (fun v (_ : Unit) => v) (create true 200 200)
        ⟨1 / 4, 1 / 4, 7⟩ () ()).Y :=
  ⟨by decide, by decide!,
    (Project_formula (fun (_ : Unit) v => v) (fun v (_ : Unit) => v) (create true 200 200)
      ⟨1 / 4, 1 / 4, 7⟩ () ()).2.2.2.1 ⟨1 / 4, 1 / 2, 7⟩ (by decide) (by decide!)⟩

/-! ## Termination of `DrawLine` -/

end Device

end Engine

/-! ## Scanline rows, gradients and columns of `RasterizeTriangle` -/

namespace Engine

namespace Device

/-- The points of a triangle are those of its `ProcessScanLine` calls. -/
theorem trianglePoints_eq_calls (p1 p2 p3 : Vector3) :
    trianglePoints p1 p2 p3 =
      (triangleScanCalls p1 p2 p3).flatMap fun c => scanLinePoints c.y c.pa c.pb c.pc c.pd := by
  unfold trianglePoints triangleScanCalls
  dsimp only
  split_ifs <;> first
    | rfl
    | (rw [List.flatMap_map]
       congr 1
       funext y
       split <;> rfl)

/-- `RasterizeTriangle` runs the `ProcessScanLine` calls of `triangleScanCalls`. -/
theorem RasterizeTriangle_eq_calls (dev : Device) (p1 p2 p3 : Vector3) (color : Color4) :
    RasterizeTriangle dev p1 p2 p3 color =
      (triangleScanCalls p1 p2 p3).foldl
        (fun d c => ProcessScanLine d c.y c.pa c.pb c.pc c.pd color) dev := by
  unfold RasterizeTriangle triangleScanCalls
  dsimp only
  split_ifs <;> first
    | rfl
    | (rw [List.foldl_map]
       congr 1
       funext d y
       split <;> rfl)

/-- The rows of the scanline loop are those between the truncated `Y` of its
two bounds. -/
theorem mem_scanRows (p1 p3 : Vector3) (y : Int) :
    y ∈ scanRows p1 p3 ↔ toInt p1.Y ≤ y ∧ y ≤ toInt p3.Y := by
  unfold scanRows
  rw [List.mem_map]
  constructor
  · rintro ⟨k, hk, rfl⟩
    rw [List.mem_range] at hk
    omega
  · rintro ⟨h1, h2⟩
    exact ⟨(y - toInt p1.Y).toNat, by rw [List.mem_range]; omega, by omega⟩

/-- A guarded gradient division of `ProcessScanLine` has a non-zero denominator. -/
theorem scanGradient_guard (pa pb : Vector3) (h : |pa.Y - pb.Y| > epsilon) : pb.Y - pa.Y ≠ 0 := by
  intro e
  have e2 : pa.Y - pb.Y = 0 := by linarith
  rw [e2, abs_zero] at h
  unfold epsilon at h
  norm_num at h

/-- The per-pixel gradient division of `ProcessScanLine` has a non-zero
denominator on every iteration of its loop. -/
theorem scanLine_pixel_guard (y : Int) (pa pb pc pd : Vector3) (x : Int)
    (h1 : scanX y pa pb ≤ x) (h2 : x < scanX y pc pd) :
    ((scanX y pc pd - scanX y pa pb : Int) : ℚ) ≠ 0 := by
  have : scanX y pc pd - scanX y pa pb ≠ 0 := by omega
  exact_mod_cast this

/-- C11 (the code at the failing input): for a line whose two endpoints
truncate to the same pixel, here `(3/2, 5/2, 7)` and `(7/4, 9/4, 9)`, `dx` and
`dy` are `0`; the initialiser of `ed` substitutes `1`, but the division
`delta(x - x0, y - y0) / delta(dx, dy)` at the head of the pass is executed all
the same, with the denominator `sqrt(0) = 0`. -/
theorem DrawLine_zero_length_denominator :
    (lineSetup sqrtDown ⟨3 / 2, 5 / 2, 7⟩ ⟨7 / 4, 9 / 4, 9⟩ 1).dx = 0 ∧
    (lineSetup sqrtDown ⟨3 / 2, 5 / 2, 7⟩ ⟨7 / 4, 9 / 4, 9⟩ 1).dy = 0 ∧
    (lineSetup sqrtDown ⟨3 / 2, 5 / 2, 7⟩ ⟨7 / 4, 9 / 4, 9⟩ 1).ed = 1 ∧
    lineDepthDenominator sqrtDown (lineSetup sqrtDown ⟨3 / 2, 5 / 2, 7⟩ ⟨7 / 4, 9 / 4, 9⟩ 1) = 0 ∧
    ((linePoints sqrtDown 4 ⟨3 / 2, 5 / 2, 7⟩ ⟨7 / 4, 9 / 4, 9⟩ 1).map fun ps => ps.map pixelOf) =
      some [(1, 2)] := by
  decide!

/-- The zero denominator does not depend on how `sqrt` rounds: whenever the two
endpoints truncate to the same pixel, `delta(dx, dy)` is `sqrt(0)`. -/
theorem lineDepthDenominator_zero_length (sqrt : ℚ → ℚ) (a b : Vector3) (width : Int)
    (hx : toInt a.X = toInt b.X) (hy : toInt a.Y = toInt b.Y) :
    lineDepthDenominator sqrt (lineSetup sqrt a b width) = sqrt 0 := by
  unfold lineDepthDenominator lineSetup delta
  simp [hx, hy]

/-- C15 (the code at the failing input): the triangle `apexPoint`,
`rightPoint`, `leftPoint` has all three `Y` below `0`; its smallest and largest
`Y` have floors `-2` and `-1`, but the scanline loop runs over the truncated
values, rows `-1` and `0`, and on row `0` pixel `(2, 0)` is written. -/
theorem RasterizeTriangle_rows_truncated :
    apexPoint.Y < 0 ∧ rightPoint.Y < 0 ∧ leftPoint.Y < 0 ∧
    ⌊(sortPoints apexPoint rightPoint leftPoint).1.Y⌋ = -2 ∧
    ⌊(sortPoints apexPoint rightPoint leftPoint).2.2.Y⌋ = -1 ∧
    (triangleScanCalls apexPoint rightPoint leftPoint).map (fun c => c.y) = [-1, 0] ∧
    rowDevice.depthAt 2 = DBL_MAX ∧
    (RasterizeTriangle rowDevice apexPoint rightPoint leftPoint ⟨1, 1, 1, 1⟩).depthAt 2 = 0 ∧
    (rowDevice.backBuffer.cells.drop 8).take 4 = [0, 0, 0, -1] ∧
    ((RasterizeTriangle rowDevice apexPoint rightPoint leftPoint
      ⟨1, 1, 1, 1⟩).backBuffer.cells.drop 8).take 4 = [-1, -1, -1, -1] := by
  decide!

/-- C16 (the code at the failing input): the on-screen triangle `topA`, `topB`,
`topC` passes the degenerate guard; its first `ProcessScanLine` call, for row
`0`, computes the left gradient `-1/6`, and the last call for the triangle
`apexPoint`, `rightPoint`, `leftPoint` computes the left gradient `3/2`. -/
theorem scanGradient_out_of_range :
    (triangleScanCalls topA topB topC).head? =
      some { y := 0, pa := topA, pb := topC, pc := topA, pd := topB } ∧
    scanGradient 0 topA topC = -1 / 6 ∧
    (triangleScanCalls apexPoint rightPoint leftPoint).getLast? =
      some { y := 0, pa := apexPoint, pb := leftPoint, pc := rightPoint, pd := leftPoint } ∧
    scanGradient 0 apexPoint leftPoint = 3 / 2 := by
  decide!

/-- C20 (the code at the failing input): the vertices of the on-screen
triangle `topA`, `topB`, `topC` have `X` between `1` and `6`, yet on row `0`
the extrapolated left edge starts at column `0` and pixel `(0, 0)` is
written. -/
theorem RasterizeTriangle_column_outside :
    ⌊min topA.X (min topB.X topC.X)⌋ = 1 ∧ ⌊max topA.X (max topB.X topC.X)⌋ = 6 ∧
    (⟨0, 0, 2 / 3⟩ : Vector3) ∈ trianglePoints topA topB topC ∧
    smallDevice.depthAt 0 = DBL_MAX ∧
    (RasterizeTriangle smallDevice topA topB topC ⟨1, 1, 1, 1⟩).depthAt 0 = 2 / 3 ∧
    smallDevice.backBuffer.cells.take 4 = [0, 0, 0, -1] ∧
    (RasterizeTriangle smallDevice topA topB topC ⟨1, 1, 1, 1⟩).backBuffer.cells.take 4 =
      [-1, -1, -1, -1] := by
  decide!

end Device

end Engine
